import Mathlib

/-! Tungsten: the `VdbGrid` density integrator and the BVH traversal.

A shallow embedding of `src/core/grids/VdbGrid.cpp` (method names, configuration,
`loadResources`, `densityIntegral`, `inverseOpticalDepth`) and of the traversal declared
in `src/thirdparty/embree/bvh4i/bvh4i_intersector1.h`.  Floats are modelled by exact
rationals; the places where IEEE arithmetic leaves the reals (a division by zero) and
where a loop may fail to finish are explicit in the result types.  The two raymarching
loops are also given over any ordered field with an explicit rounding after every
operation (`densityIntegralLoopOver`, `inverseOpticalDepthLoopOver`): exact arithmetic is
the identity rounding, the machine's arithmetic is `roundFloat`.
-/

namespace Tungsten

/-! ## Vectors and the external collaborators -/

/-- Three-component float vector (`Vec3f`), over exact rationals. -/
structure Vec3f where
  x : ℚ
  y : ℚ
  z : ℚ

/-- Component-wise sum of two vectors, `a + b`. -/
def Vec3f.add (a b : Vec3f) : Vec3f := ⟨a.x + b.x, a.y + b.y, a.z + b.z⟩

/-- Vector times scalar, `v*s`. -/
def Vec3f.scale (v : Vec3f) (s : ℚ) : Vec3f := ⟨v.x * s, v.y * s, v.z * s⟩

/-- Vector plus scalar, `v + s`: the scalar is added to every component. -/
def Vec3f.addScalar (v : Vec3f) (s : ℚ) : Vec3f := ⟨v.x + s, v.y + s, v.z + s⟩

/-- Two-component float vector (`Vec2f`), the `(distance, density)` pair. -/
structure Vec2f where
  x : ℚ
  y : ℚ

/-- Integer voxel coordinate (`openvdb::Coord`). -/
structure Coord where
  x : ℤ
  y : ℤ
  z : ℤ

/-- Strategy for `inverseOpticalDepth`. -/
inductive SampleMethod where
  | ExactNearest
  | Raymarching
  deriving DecidableEq, Repr

/-- Strategy for `densityIntegral`. -/
inductive IntegrationMethod where
  | ExactNearest
  | Raymarching
  deriving DecidableEq, Repr

/-- Modelled from the spec: `sampling/PathSampleGenerator.hpp` is not among the sources.
The Sample Stream "produces a reproducible sequence of uniform values": a fixed sequence
together with the position of the next value to hand out. -/
structure PathSampleGenerator where
  stream : ℕ → ℚ
  cursor : ℕ

/-- Draw one value: the value at the cursor, and the stream advanced by one. -/
def PathSampleGenerator.next1D (s : PathSampleGenerator) : ℚ × PathSampleGenerator :=
  (s.stream s.cursor, ⟨s.stream, s.cursor + 1⟩)

/-- The loaded `openvdb::FloatGrid`: the per-voxel values read through an accessor
(`accessor.getValue`) and the interpolating point sampler
(`openvdb::tools::BoxSampler::sample`).  Both belong to OpenVDB and are parameters here. -/
structure FloatGrid where
  getValue : Coord → ℚ
  boxSample : Vec3f → ℚ

/-- The ray handed to the marcher (`DdaRay(pos, dir)`). -/
structure DdaRay where
  pos : Vec3f
  dir : Vec3f

/-- One cell reported by the marcher: the voxel and its entry and exit distances. -/
structure Cell where
  voxel : Coord
  ta : ℚ
  tb : ℚ

/-- Modelled from the spec: `VdbRaymarcher.hpp` is not among the sources.  The DDA Marcher
"enumerates, in ray order, every voxel cell a segment crosses, with entry/exit parametric
distances per cell"; the enumeration it produces for a ray and a segment is a parameter. -/
structure VdbRaymarcher where
  cells : DdaRay → ℚ → ℚ → List Cell

/-- Modelled from the spec: the marcher's callback protocol of `VdbRaymarcher.hpp`.  It
"invokes a caller-supplied step function with `(voxel, ta, tb)` and a boolean stop return",
going on "while the caller continues" and ending "when the caller signals stop".  The
variables the C++ lambda captures by reference are the state `σ` threaded through. -/
def marchCells {σ : Type} (step : σ → Cell → σ × Bool) : List Cell → σ → σ
  | [], s => s
  | c :: cs, s =>
    let r := step s c
    if r.2 then r.1 else marchCells step cs r.1

/-- Modelled from the spec: `VdbRaymarcher::march(ray, t0, t1, accessor, callback)` drives
the callback over the cells the marcher reports for the segment. -/
def VdbRaymarcher.march {σ : Type} (dda : VdbRaymarcher) (ray : DdaRay) (t0 t1 : ℚ)
    (step : σ → Cell → σ × Bool) (s : σ) : σ :=
  marchCells step (dda.cells ray t0 t1) s

/-! ## Matrices, boxes and parsed configuration values -/

/-- Three-component integer vector (`Vec3i`). -/
structure Vec3i where
  x : ℤ
  y : ℤ
  z : ℤ

/-- Component-wise difference of two integer vectors, `a - b`. -/
def Vec3i.sub (a b : Vec3i) : Vec3i := ⟨a.x - b.x, a.y - b.y, a.z - b.z⟩

/-- Conversion `Vec3f(v)` of an integer vector. -/
def Vec3f.ofVec3i (v : Vec3i) : Vec3f := ⟨v.x, v.y, v.z⟩

/-- Largest component of a vector, `v.max()`. -/
def Vec3f.max (v : Vec3f) : ℚ := Max.max (Max.max v.x v.y) v.z

/-- Negated vector, `-v`. -/
def Vec3f.neg (v : Vec3f) : Vec3f := ⟨-v.x, -v.y, -v.z⟩

/-- Vector with the same value in every component, `Vec3f(s)`. -/
def Vec3f.splat (s : ℚ) : Vec3f := ⟨s, s, s⟩

/-- Axis-aligned box (`Box3f`) given by its two corners. -/
structure Box3f where
  min : Vec3f
  max : Vec3f

/-- Index-space bounding box (`openvdb::CoordBBox`) given by its two corners. -/
structure CoordBBox where
  min : Coord
  max : Coord

/-- Modelled from the spec: `math/Mat4f.hpp` is not among the sources.  A `Mat4f` is a
"4×4 matrix" acting on homogeneous coordinates. -/
abbrev Mat4f := Matrix (Fin 4) (Fin 4) ℚ

/-- Modelled from the spec: `Mat4f::translate(v)`, the matrix of the translation by `v`. -/
def Mat4f.translate (v : Vec3f) : Mat4f :=
  !![1, 0, 0, v.x; 0, 1, 0, v.y; 0, 0, 1, v.z; 0, 0, 0, 1]

/-- Modelled from the spec: `Mat4f::scale(s)`, the matrix scaling each axis by the
matching component of `s`. -/
def Mat4f.scale (s : Vec3f) : Mat4f :=
  !![s.x, 0, 0, 0; 0, s.y, 0, 0; 0, 0, s.z, 0; 0, 0, 0, 1]

/-- Modelled from the spec: `Mat4f::invert()`, the inverse of an invertible matrix
(its adjugate over its determinant). -/
def Mat4f.invert (m : Mat4f) : Mat4f := (Matrix.det m)⁻¹ • Matrix.adjugate m

/-- Modelled from the spec: the point transform `m*p`, the matrix applied to the point
`(p.x, p.y, p.z, 1)`. -/
def Mat4f.transformPoint (m : Mat4f) (p : Vec3f) : Vec3f :=
  ⟨m 0 0 * p.x + m 0 1 * p.y + m 0 2 * p.z + m 0 3,
    m 1 0 * p.x + m 1 1 * p.y + m 1 2 * p.z + m 1 3,
    m 2 0 * p.x + m 2 1 * p.y + m 2 2 * p.z + m 2 3⟩

/-- A value of the already-parsed key/value configuration structure. -/
inductive JsonValue where
  | string (s : String)
  | number (x : ℚ)
  | matrix (m : Mat4f)

/-- A parsed object: its members, in order. -/
abbrev JsonObject := List (String × JsonValue)

/-- The `AddMember(key, value)` of a parsed object: the member is appended. -/
def JsonObject.addMember (v : JsonObject) (key : String) (value : JsonValue) : JsonObject :=
  v ++ [(key, value)]

/-- The external scene: how it resolves the resource named by a member of a parsed
object (`scene.fetchResource(v, field)`); the returned `PathPtr` may be null. -/
structure Scene where
  fetchResource : JsonObject → String → Option String

/-! ## The grid object -/

/-- The members of `VdbGrid`.  `_path` is a `PathPtr` and may be null. -/
structure VdbGrid where
  _gridName : String
  _integrationString : String
  _sampleString : String
  _stepSize : ℚ
  _integrationMethod : IntegrationMethod
  _sampleMethod : SampleMethod
  _grid : FloatGrid
  _path : Option String
  _configTransform : Mat4f
  _invConfigTransform : Mat4f
  _transform : Mat4f
  _invTransform : Mat4f
  _bounds : Box3f

/-- Point sample of the grid: `gridAt(grid, p)`. -/
def gridAt (grid : FloatGrid) (p : Vec3f) : ℚ := grid.boxSample p

/-- Density at a point: `VdbGrid::density`. -/
def VdbGrid.density (g : VdbGrid) (p : Vec3f) : ℚ := gridAt g._grid p

/-! ## `densityIntegral` -/

/-- The `do { ... } while (ta < t1)` loop of the raymarching branch of `densityIntegral`,
in exact arithmetic.  The state is `(ta, fa, integral, dT)`; `none` means the fuel ran out
before the loop condition failed.  The rounding of the float operations, which decides
whether `ta + dT` moves at all, is in `densityIntegralLoopOver`. -/
def densityIntegralLoop (grid : FloatGrid) (p w : Vec3f) (t1 stepSize : ℚ) :
    ℕ → ℚ → ℚ → ℚ → ℚ → Option ℚ
  | 0, _, _, _, _ => none
  | fuel + 1, ta, fa, integral, dT =>
    let tb := min (ta + dT) t1
    let fb := gridAt grid (p.add (w.scale tb))
    let integral := integral + (fa + fb) * (1 / 2) * (tb - ta)
    if tb < t1 then densityIntegralLoop grid p w t1 stepSize fuel tb fb integral stepSize
    else some integral

/-- `VdbGrid::densityIntegral(sampler, p, w, t0, t1)`: the result (or `none` when the
raymarching loop did not finish within the fuel) and the sample stream afterwards. -/
def VdbGrid.densityIntegral (g : VdbGrid) (dda : VdbRaymarcher) (fuel : ℕ)
    (sampler : PathSampleGenerator) (p w : Vec3f) (t0 t1 : ℚ) :
    Option ℚ × PathSampleGenerator :=
  if g._integrationMethod = IntegrationMethod.ExactNearest then
    (some (dda.march (DdaRay.mk (p.addScalar (1 / 2)) w) t0 t1
        (fun (result : ℚ) (c : Cell) => (result + g._grid.getValue c.voxel * (c.tb - c.ta), false))
        0),
      sampler)
  else
    let ta := t0
    let fa := gridAt g._grid p
    let draw := sampler.next1D
    let dT := draw.1 * g._stepSize
    (densityIntegralLoop g._grid p w t1 g._stepSize fuel ta fa 0 dT, draw.2)

/-! ## `inverseOpticalDepth` -/

/-- Why a float computation has no value in the exact model. -/
inductive Fault where
  | outOfFuel
  | divByZero
  deriving DecidableEq, Repr

/-- Float division.  IEEE division by zero yields an infinity or a NaN, which is no
number of the exact model: it is reported as `Fault.divByZero`. -/
def fdiv (x y : ℚ) : Except Fault ℚ :=
  if y = 0 then Except.error Fault.divByZero else Except.ok (x / y)

/-- State of the exact-mode callback of `inverseOpticalDepth`: the captured
`opticalDepth` and `result`. -/
structure ExactState where
  opticalDepth : ℚ
  result : Except Fault Vec2f

/-- The lambda passed to `dda.march` in the exact branch of `inverseOpticalDepth`. -/
def inverseStep (grid : FloatGrid) (sigmaT xi : ℚ) (s : ExactState) (c : Cell) :
    ExactState × Bool :=
  let v := grid.getValue c.voxel
  let delta := v * sigmaT * (c.tb - c.ta)
  if s.opticalDepth + delta ≥ xi then
    (⟨s.opticalDepth,
        (fdiv ((c.tb - c.ta) * (xi - s.opticalDepth)) delta).map fun q => ⟨c.ta + q, v⟩⟩,
      true)
  else
    (⟨s.opticalDepth + delta, s.result⟩, false)

/-- The quadratic solve of the raymarching branch at a crossing step (lines 214-219).
`sqrt` stands for `std::sqrt`. -/
def solveCrossing (sqrt : ℚ → ℚ) (ta tb fa fb integral xi : ℚ) : Except Fault Vec2f :=
  let a := fb - fa
  let b := fa
  match fdiv (integral - xi) (tb - ta) with
  | Except.error e => Except.error e
  | Except.ok c =>
    let mantissa := max (b * b - 2 * a * c) 0
    match fdiv (-b + sqrt mantissa) a with
    | Except.error e => Except.error e
    | Except.ok x1 => Except.ok ⟨ta + (tb - ta) * x1, fa + (fb - fa) * x1⟩

/-- The `do { ... } while (ta < t1)` loop of the raymarching branch of
`inverseOpticalDepth`, in exact arithmetic, with state `(ta, fa, integral, dT)`.  The
rounding of the float operations is in `inverseOpticalDepthLoopOver`. -/
def inverseOpticalDepthLoop (sqrt : ℚ → ℚ) (grid : FloatGrid) (p w : Vec3f)
    (t1 sigmaT xi stepSize : ℚ) : ℕ → ℚ → ℚ → ℚ → ℚ → Except Fault Vec2f
  | 0, _, _, _, _ => Except.error Fault.outOfFuel
  | fuel + 1, ta, fa, integral, dT =>
    let tb := min (ta + dT) t1
    let fb := gridAt grid (p.add (w.scale tb)) * sigmaT
    let delta := (fa + fb) * (1 / 2) * (tb - ta)
    if integral + delta ≥ xi then solveCrossing sqrt ta tb fa fb integral xi
    else if tb < t1 then
      inverseOpticalDepthLoop sqrt grid p w t1 sigmaT xi stepSize fuel tb fb (integral + delta)
        stepSize
    else Except.ok ⟨t1, fb⟩

/-- `VdbGrid::inverseOpticalDepth(sampler, p, w, t0, t1, sigmaT, xi)`: the returned pair
(or the fault that keeps the exact model from having one) and the sample stream
afterwards. -/
def VdbGrid.inverseOpticalDepth (g : VdbGrid) (dda : VdbRaymarcher) (sqrt : ℚ → ℚ) (fuel : ℕ)
    (sampler : PathSampleGenerator) (p w : Vec3f) (t0 t1 sigmaT xi : ℚ) :
    Except Fault Vec2f × PathSampleGenerator :=
  if g._sampleMethod = SampleMethod.ExactNearest then
    ((dda.march (DdaRay.mk (p.addScalar (1 / 2)) w) t0 t1 (inverseStep g._grid sigmaT xi)
        (ExactState.mk 0 (Except.ok ⟨t1, 0⟩))).result,
      sampler)
  else
    let ta := t0
    let fa := gridAt g._grid p * sigmaT
    let draw := sampler.next1D
    let dT := draw.1 * g._stepSize
    (inverseOpticalDepthLoop sqrt g._grid p w t1 sigmaT xi g._stepSize fuel ta fa 0 dT, draw.2)

/-! ## The raymarching loops over any ordered field, with the rounding of float arithmetic -/

/-- Three-component vector over a number type `K`. -/
structure Vec3 (K : Type) where
  x : K
  y : K
  z : K

/-- The point `p + w*t` on the ray, each product and each sum followed by the rounding
`rnd` of the arithmetic. -/
def Vec3.along {K : Type} [LinearOrderedField K] (rnd : K → K) (p w : Vec3 K) (t : K) : Vec3 K :=
  ⟨rnd (p.x + rnd (w.x * t)), rnd (p.y + rnd (w.y * t)), rnd (p.z + rnd (w.z * t))⟩

/-- The raymarching loop of `densityIntegral` (lines 172-179) over an ordered field `K`,
every arithmetic operation followed by the rounding `rnd`; `sample` stands for
`gridAt(_grid, .)`.  With `K` the rationals and `rnd` the identity this is
`densityIntegralLoop`; with `rnd` the rounding to `float` it is the loop as the machine
runs it. -/
def densityIntegralLoopOver {K : Type} [LinearOrderedField K] (rnd : K → K)
    (sample : Vec3 K → K) (p w : Vec3 K) (t1 stepSize : K) : ℕ → K → K → K → K → Option K
  | 0, _, _, _, _ => none
  | fuel + 1, ta, fa, integral, dT =>
    let tb := min (rnd (ta + dT)) t1
    let fb := sample (Vec3.along rnd p w tb)
    let integral := rnd (integral + rnd (rnd (rnd (fa + fb) * (1 / 2)) * rnd (tb - ta)))
    if tb < t1 then
      densityIntegralLoopOver rnd sample p w t1 stepSize fuel tb fb integral stepSize
    else some integral

/-- Float division over an ordered field, the quotient followed by the rounding `rnd`;
a zero divisor is reported as `Fault.divByZero`. -/
def fdivOver {K : Type} [LinearOrderedField K] (rnd : K → K) (x y : K) : Except Fault K :=
  if y = 0 then Except.error Fault.divByZero else Except.ok (rnd (x / y))

/-- The quadratic solve of the crossing step (lines 214-219) over an ordered field `K`
with rounding `rnd`; `sqrt` stands for `std::sqrt`, which returns a number of the type
already.  The result is the pair `(distance, density)`. -/
def solveCrossingOver {K : Type} [LinearOrderedField K] (rnd sqrt : K → K)
    (ta tb fa fb integral xi : K) : Except Fault (K × K) :=
  let a := rnd (fb - fa)
  let b := fa
  match fdivOver rnd (rnd (integral - xi)) (rnd (tb - ta)) with
  | Except.error e => Except.error e
  | Except.ok c =>
    let mantissa := max (rnd (rnd (b * b) - rnd (rnd (2 * a) * c))) 0
    match fdivOver rnd (rnd (-b + sqrt mantissa)) a with
    | Except.error e => Except.error e
    | Except.ok x1 =>
      Except.ok (rnd (ta + rnd (rnd (tb - ta) * x1)), rnd (fa + rnd (rnd (fb - fa) * x1)))

/-- The raymarching loop of `inverseOpticalDepth` with the return after it (lines 209-226)
over an ordered field `K`, every arithmetic operation followed by the rounding `rnd`;
`sample` stands for `gridAt(_grid, .)` and `sqrt` for `std::sqrt`.  With `K` the
rationals and `rnd` the identity this is `inverseOpticalDepthLoop`. -/
def inverseOpticalDepthLoopOver {K : Type} [LinearOrderedField K] (rnd sqrt : K → K)
    (sample : Vec3 K → K) (p w : Vec3 K) (t1 sigmaT xi stepSize : K) :
    ℕ → K → K → K → K → Except Fault (K × K)
  | 0, _, _, _, _ => Except.error Fault.outOfFuel
  | fuel + 1, ta, fa, integral, dT =>
    let tb := min (rnd (ta + dT)) t1
    let fb := rnd (sample (Vec3.along rnd p w tb) * sigmaT)
    let delta := rnd (rnd (rnd (fa + fb) * (1 / 2)) * rnd (tb - ta))
    if rnd (integral + delta) ≥ xi then solveCrossingOver rnd sqrt ta tb fa fb integral xi
    else if tb < t1 then
      inverseOpticalDepthLoopOver rnd sqrt sample p w t1 sigmaT xi stepSize fuel tb fb
        (rnd (integral + delta)) stepSize
    else Except.ok (t1, fb)

/-- Round a rational to the nearest integer, a tie to the even neighbour. -/
def roundHalfEven (q : ℚ) : ℤ :=
  if q - ⌊q⌋ < 1 / 2 then ⌊q⌋
  else if 1 / 2 < q - ⌊q⌋ then ⌊q⌋ + 1
  else if ⌊q⌋ % 2 = 0 then ⌊q⌋
  else ⌊q⌋ + 1

/-- The rounding of a result to the type `float` (IEEE binary32, round to nearest, ties
to even): 24 significant bits, so around an `x` with `2^e <= |x| < 2^(e+1)` the floats
are the multiples of `2^(e-23)`.  The exponent range is left unbounded (no overflow, no
subnormal numbers). -/
def roundFloat (x : ℚ) : ℚ :=
  if x = 0 then 0
  else roundHalfEven (x / 2 ^ (Int.log 2 |x| - 23)) * 2 ^ (Int.log 2 |x| - 23)


/-! ## Method names and configuration -/

/-- `VdbGrid::sampleMethodToString`. -/
def sampleMethodToString (method : SampleMethod) : String :=
  match method with
  | SampleMethod.Raymarching => "raymarching"
  | SampleMethod.ExactNearest => "exact_nearest"

/-- `VdbGrid::integrationMethodToString`. -/
def integrationMethodToString (method : IntegrationMethod) : String :=
  match method with
  | IntegrationMethod.Raymarching => "raymarching"
  | IntegrationMethod.ExactNearest => "exact_nearest"

/-- What a `FAIL(...)` reports: the fatal configuration error and the offending name. -/
inductive Failure where
  | invalidSampleMethod (name : String)
  | invalidIntegrationMethod (name : String)
  deriving DecidableEq, Repr

/-- `VdbGrid::stringToSampleMethod`. -/
def stringToSampleMethod (name : String) : Except Failure SampleMethod :=
  if name = "exact_nearest" then Except.ok SampleMethod.ExactNearest
  else if name = "raymarching" then Except.ok SampleMethod.Raymarching
  else Except.error (Failure.invalidSampleMethod name)

/-- `VdbGrid::stringToIntegrationMethod`. -/
def stringToIntegrationMethod (name : String) : Except Failure IntegrationMethod :=
  if name = "exact_nearest" then Except.ok IntegrationMethod.ExactNearest
  else if name = "raymarching" then Except.ok IntegrationMethod.Raymarching
  else Except.error (Failure.invalidIntegrationMethod name)

/-- Modelled from the spec: `io/JsonUtils.hpp` is not among the sources.
`JsonUtils::fromJson(v, field, dst)` on a string: a recognised option that is present
replaces the destination, otherwise the destination keeps its default. -/
def JsonUtils.fromJsonString (v : JsonObject) (field : String) (dst : String) : String :=
  match v.lookup field with
  | some (JsonValue.string s) => s
  | _ => dst

/-- Modelled from the spec: `JsonUtils::fromJson(v, field, dst)` on a float. -/
def JsonUtils.fromJsonFloat (v : JsonObject) (field : String) (dst : ℚ) : ℚ :=
  match v.lookup field with
  | some (JsonValue.number x) => x
  | _ => dst

/-- Modelled from the spec: `JsonUtils::fromJson(v, field, dst)` on a matrix. -/
def JsonUtils.fromJsonMat4f (v : JsonObject) (field : String) (dst : Mat4f) : Mat4f :=
  match v.lookup field with
  | some (JsonValue.matrix m) => m
  | _ => dst

/-- The constructor `VdbGrid::VdbGrid()`.  The members it does not mention are
default-constructed: a null `_path`, identity matrices, an empty box; `unloaded` stands
for the `_grid` pointer, which is not set before `loadResources`. -/
def VdbGrid.create (unloaded : FloatGrid) : Except Failure VdbGrid :=
  match stringToIntegrationMethod "exact_nearest", stringToSampleMethod "exact_nearest" with
  | Except.ok integrationMethod, Except.ok sampleMethod =>
    Except.ok ⟨"density", "exact_nearest", "exact_nearest", 5, integrationMethod, sampleMethod,
      unloaded, none, 1, 1, 1, 1, ⟨⟨0, 0, 0⟩, ⟨0, 0, 0⟩⟩⟩
  | Except.error e, _ => Except.error e
  | _, Except.error e => Except.error e

/-- `VdbGrid::fromJson(v, scene)`. -/
def VdbGrid.fromJson (g : VdbGrid) (v : JsonObject) (scene : Scene) : Except Failure VdbGrid :=
  let path := scene.fetchResource v "file"
  let gridName := JsonUtils.fromJsonString v "grid_name" g._gridName
  let integrationString := JsonUtils.fromJsonString v "integration_method" g._integrationString
  let sampleString := JsonUtils.fromJsonString v "sampling_method" g._sampleString
  let stepSize := JsonUtils.fromJsonFloat v "step_size" g._stepSize
  let configTransform := JsonUtils.fromJsonMat4f v "transform" g._configTransform
  match stringToIntegrationMethod integrationString with
  | Except.error e => Except.error e
  | Except.ok integrationMethod =>
    match stringToSampleMethod sampleString with
    | Except.error e => Except.error e
    | Except.ok sampleMethod =>
      Except.ok ⟨gridName, integrationString, sampleString, stepSize, integrationMethod,
        sampleMethod, g._grid, path, configTransform, g._invConfigTransform, g._transform,
        g._invTransform, g._bounds⟩

/-- `VdbGrid::toJson(allocator)`.  `base` is the object `Grid::toJson` returns (the base
class is not among the sources); `none` stands for the dereference of a null `_path`. -/
def VdbGrid.toJson (g : VdbGrid) (base : JsonObject) : Option JsonObject :=
  match g._path with
  | none => none
  | some path =>
    let v := base
    let v := v.addMember "type" (JsonValue.string "vdb")
    let v := v.addMember "file" (JsonValue.string path)
    let v := v.addMember "grid_name" (JsonValue.string g._gridName)
    let v := v.addMember "integration_method" (JsonValue.string g._integrationString)
    let v := v.addMember "sampling_method" (JsonValue.string g._sampleString)
    let v :=
      if g._integrationMethod = IntegrationMethod.Raymarching
          ∨ g._sampleMethod = SampleMethod.Raymarching then
        v.addMember "step_size" (JsonValue.number g._stepSize)
      else v
    let v := v.addMember "transform" (JsonValue.matrix g._configTransform)
    some v

/-! ## `loadResources` and the transforms -/

/-- `VdbGrid::loadResources`, from the point where the grid has been read: `grid` is the
`FloatGrid` obtained from the file and `bbox` its `evalActiveVoxelBoundingBox()`.  (The
failures of opening the file and of finding a float grid of the given name end the
function before, with `FAIL`.)  A division by zero leaves the exact model. -/
def VdbGrid.loadResources (g : VdbGrid) (grid : FloatGrid) (bbox : CoordBBox) :
    Except Fault VdbGrid :=
  let minP : Vec3i := ⟨bbox.min.x, bbox.min.y, bbox.min.z⟩
  let maxP : Vec3i := ⟨bbox.max.x, bbox.max.y, bbox.max.z⟩
  let diag := Vec3f.ofVec3i (maxP.sub minP)
  match fdiv 1 diag.max with
  | Except.error e => Except.error e
  | Except.ok scale =>
    let diag := diag.scale scale
    let center := ((Vec3f.ofVec3i minP).scale scale).add ((Vec3f.mk diag.x 0 diag.z).scale (1 / 2))
    match fdiv 1 scale with
    | Except.error e => Except.error e
    | Except.ok invScale =>
      Except.ok ⟨g._gridName, g._integrationString, g._sampleString, g._stepSize,
        g._integrationMethod, g._sampleMethod, grid, g._path, g._configTransform,
        g._configTransform.invert,
        Mat4f.translate center.neg * Mat4f.scale (Vec3f.splat scale),
        Mat4f.scale (Vec3f.splat invScale) * Mat4f.translate center,
        ⟨Vec3f.ofVec3i minP, Vec3f.ofVec3i maxP⟩⟩

/-- `VdbGrid::naturalTransform`. -/
def VdbGrid.naturalTransform (g : VdbGrid) : Mat4f := g._configTransform * g._transform

/-- `VdbGrid::invNaturalTransform`. -/
def VdbGrid.invNaturalTransform (g : VdbGrid) : Mat4f := g._invTransform * g._invConfigTransform

/-- `VdbGrid::bounds`. -/
def VdbGrid.bounds (g : VdbGrid) : Box3f := g._bounds

/-! ## BVH traversal -/

/-- The ray of a query: origin, direction and the valid parametric interval
`[tMin, tMax]`. -/
structure Ray where
  org : Vec3f
  dir : Vec3f
  tMin : ℚ
  tMax : ℚ

/-- A scene primitive: a triangle with its id. -/
structure Triangle where
  id : ℕ
  v0 : Vec3f
  v1 : Vec3f
  v2 : Vec3f

/-- The hit a nearest-hit query reports: the primitive id and the hit distance (the local
hit data of the primitive test is left out). -/
structure Hit where
  id : ℕ
  t : ℚ

/-- Modelled from the spec: `bvh4i.h` is not among the sources.  A node of the wide tree
is a leaf with its primitive range, or an internal node with the bounding boxes of its
four children and the children themselves, of which some may be empty. -/
inductive Node where
  | empty
  | leaf (tris : List Triangle)
  | inner (b0 b1 b2 b3 : Box3f) (c0 c1 c2 c3 : Node)

/-- Number of nodes of a tree. -/
def Node.size : Node → ℕ
  | Node.empty => 1
  | Node.leaf _ => 1
  | Node.inner _ _ _ _ c0 c1 c2 c3 => 1 + c0.size + c1.size + c2.size + c3.size

/-- Modelled from the spec: the traverser `BVH4iIntersector1<TriangleIntersector>`, of
which only the declaration is among the sources.  It holds the tree; the
primitive-specific intersection test (the template parameter, "out of scope"), the box
test and the near-to-far order of two child boxes for a ray are parameters.  The tests
return the distance along the ray, or nothing on a miss. -/
structure BVH4iIntersector1 where
  bvh : Node
  triangle : Triangle → Ray → Option ℚ
  boxEntry : Box3f → Ray → Option ℚ
  nearer : Ray → Box3f → Box3f → Bool

/-- The box of a child is kept when the ray enters it no later than `tfar`. -/
def BVH4iIntersector1.entered (This : BVH4iIntersector1) (ray : Ray) (tfar : ℚ) (b : Box3f) :
    Bool :=
  match This.boxEntry b ray with
  | some t => decide (t ≤ tfar)
  | none => false

/-- Modelled from the spec: at an internal node "compute all child box intersections,
discard any whose entry distance exceeds" `tfar`, and "push remaining children in
front-to-back order": the children to push, nearest first. -/
def BVH4iIntersector1.pushed (This : BVH4iIntersector1) (ray : Ray) (tfar : ℚ)
    (b0 b1 b2 b3 : Box3f) (c0 c1 c2 c3 : Node) : List Node :=
  (List.insertionSort (fun x y : Box3f × Node => This.nearer ray x.1 y.1 = true)
    ([(b0, c0), (b1, c1), (b2, c2), (b3, c3)].filter fun k => This.entered ray tfar k.1)).map
    Prod.snd

/-- The primitive test within the interval `[tMin, tfar]`. -/
def BVH4iIntersector1.hitWithin (This : BVH4iIntersector1) (ray : Ray) (tfar : ℚ)
    (tri : Triangle) : Option ℚ :=
  match This.triangle tri ray with
  | some t => if ray.tMin ≤ t ∧ t ≤ tfar then some t else none
  | none => none

/-- The far end of the interval still searched: the distance of the best hit so far, or
`tMax` when there is none. -/
def tfarOf (ray : Ray) (best : Option Hit) : ℚ :=
  match best with
  | some h => h.t
  | none => ray.tMax

/-- One primitive of a leaf in a nearest-hit query: a hit within the current interval
becomes the best hit. -/
def BVH4iIntersector1.tryTriangle (This : BVH4iIntersector1) (ray : Ray) (best : Option Hit)
    (tri : Triangle) : Option Hit :=
  match This.hitWithin ray (tfarOf ray best) tri with
  | some t => some ⟨tri.id, t⟩
  | none => best

/-- Modelled from the spec: the stack loop of `BVH4iIntersector1::intersect`.  "Traversal
is stack-based": the top node is popped; a leaf delegates to the primitive test, an
internal node pushes the children whose entry distance does not exceed the current best. -/
def BVH4iIntersector1.intersectLoop (This : BVH4iIntersector1) (ray : Ray) :
    List Node → Option Hit → Option Hit
  | [], best => best
  | Node.empty :: stack, best => This.intersectLoop ray stack best
  | Node.leaf tris :: stack, best =>
    This.intersectLoop ray stack (tris.foldl (This.tryTriangle ray) best)
  | Node.inner b0 b1 b2 b3 c0 c1 c2 c3 :: stack, best =>
    This.intersectLoop ray (This.pushed ray (tfarOf ray best) b0 b1 b2 b3 c0 c1 c2 c3 ++ stack) best
termination_by stack _ => (stack.map Node.size).sum
decreasing_by
  · simp only [List.map_cons, List.sum_cons, Node.size]
    omega
  · simp only [List.map_cons, List.sum_cons, Node.size]
    omega
  · have hperm := List.perm_insertionSort
      (fun x y : Box3f × Node => This.nearer ray x.1 y.1 = true)
      ([(b0, c0), (b1, c1), (b2, c2), (b3, c3)].filter
        fun k => This.entered ray (tfarOf ray best) k.1)
    have hsum := ((hperm.map Prod.snd).map Node.size).sum_eq
    have hsub := (((List.filter_sublist
      (p := fun k : Box3f × Node => This.entered ray (tfarOf ray best) k.1)
      [(b0, c0), (b1, c1), (b2, c2), (b3, c3)]).map Prod.snd).map Node.size).sum_le_sum
      (fun _ _ => Nat.zero_le _)
    simp only [BVH4iIntersector1.pushed, List.map_append, List.sum_append, List.map_cons,
      List.sum_cons, Node.size, List.map_nil, List.sum_nil] at hsum hsub ⊢
    omega

/-- Modelled from the spec: `BVH4iIntersector1::intersect(This, ray)`, the nearest-hit
query: the traversal starts from the root with no hit. -/
def BVH4iIntersector1.intersect (This : BVH4iIntersector1) (ray : Ray) : Option Hit :=
  This.intersectLoop ray [This.bvh] none

/-- Modelled from the spec: the stack loop of `BVH4iIntersector1::occluded`: children
are discarded when their entry distance exceeds `tMax`, and the query "short-circuits on
the first primitive hit within range". -/
def BVH4iIntersector1.occludedLoop (This : BVH4iIntersector1) (ray : Ray) : List Node → Bool
  | [] => false
  | Node.empty :: stack => This.occludedLoop ray stack
  | Node.leaf tris :: stack =>
    if tris.any (fun tri => (This.hitWithin ray ray.tMax tri).isSome) then true
    else This.occludedLoop ray stack
  | Node.inner b0 b1 b2 b3 c0 c1 c2 c3 :: stack =>
    This.occludedLoop ray (This.pushed ray ray.tMax b0 b1 b2 b3 c0 c1 c2 c3 ++ stack)
termination_by stack => (stack.map Node.size).sum
decreasing_by
  · simp only [List.map_cons, List.sum_cons, Node.size]
    omega
  · simp only [List.map_cons, List.sum_cons, Node.size]
    omega
  · have hperm := List.perm_insertionSort
      (fun x y : Box3f × Node => This.nearer ray x.1 y.1 = true)
      ([(b0, c0), (b1, c1), (b2, c2), (b3, c3)].filter
        fun k => This.entered ray ray.tMax k.1)
    have hsum := ((hperm.map Prod.snd).map Node.size).sum_eq
    have hsub := (((List.filter_sublist
      (p := fun k : Box3f × Node => This.entered ray ray.tMax k.1)
      [(b0, c0), (b1, c1), (b2, c2), (b3, c3)]).map Prod.snd).map Node.size).sum_le_sum
      (fun _ _ => Nat.zero_le _)
    simp only [BVH4iIntersector1.pushed, List.map_append, List.sum_append, List.map_cons,
      List.sum_cons, Node.size, List.map_nil, List.sum_nil] at hsum hsub ⊢
    omega

/-- Modelled from the spec: `BVH4iIntersector1::occluded(This, ray)`, the any-hit query. -/
def BVH4iIntersector1.occluded (This : BVH4iIntersector1) (ray : Ray) : Bool :=
  This.occludedLoop ray [This.bvh]

/-! ## Vocabulary of the properties -/

/-- Contribution of one cell to the exact-mode integral: `value(voxel)*(tb - ta)`. -/
def cellIntegral (grid : FloatGrid) (c : Cell) : ℚ := grid.getValue c.voxel * (c.tb - c.ta)

/-- Contribution of one cell to the exact-mode optical depth: `value*sigmaT*(tb - ta)`. -/
def cellDelta (grid : FloatGrid) (sigmaT : ℚ) (c : Cell) : ℚ :=
  grid.getValue c.voxel * sigmaT * (c.tb - c.ta)

/-- The spans of the cells tile `[a, b]`: the first cell starts at `a`, each cell ends
where the next one starts, and the last one ends at `b`. -/
def Tiles : List Cell → ℚ → ℚ → Prop
  | [], a, b => a = b
  | c :: cs, a, b => c.ta = a ∧ Tiles cs c.tb b

/-- The cells clipped at `t1`: the cells that start before `t1`, each cut off at `t1`. -/
def clipCells (t1 : ℚ) (cs : List Cell) : List Cell :=
  (cs.filter fun c => c.ta < t1).map fun c => ⟨c.voxel, c.ta, min c.tb t1⟩

/-- Length the loop asks for at step `k` of the jittered plan: `u*h` first, `h` after. -/
def stepLength (h u : ℚ) (k : ℕ) : ℚ := if k = 0 then u * h else h

/-- Nodes of the jittered step plan: `s_0 = t0`, `s_1 = min(t0 + u*h, t1)`,
`s_(k+1) = min(s_k + h, t1)`. -/
def stepNode (t0 t1 h u : ℚ) : ℕ → ℚ
  | 0 => t0
  | k + 1 => min (stepNode t0 t1 h u k + stepLength h u k) t1

/-- The sample the raymarching loops hold for node `k`: the value at `p` itself for the
first node, the value on the ray at the node for the later ones. -/
def loopSample (f : Vec3f → ℚ) (p w : Vec3f) (node : ℕ → ℚ) (k : ℕ) : ℚ :=
  if k = 0 then f p else f (p.add (w.scale (node k)))

/-- The sample on the ray at node `k`, `f(p + w*s_k)`, for every `k`. -/
def raySample (f : Vec3f → ℚ) (p w : Vec3f) (node : ℕ → ℚ) (k : ℕ) : ℚ :=
  f (p.add (w.scale (node k)))

/-- Trapezoid sum over the first `n` steps of a plan:
the sum over `k < n` of `(f_k + f_(k+1))/2 * (s_(k+1) - s_k)`. -/
def trapezoidSum (node samp : ℕ → ℚ) : ℕ → ℚ
  | 0 => 0
  | n + 1 => trapezoidSum node samp n + (samp n + samp (n + 1)) * (1 / 2) * (node (n + 1) - node n)

/-- The first value the stream will hand out: the jitter `u` of the next call. -/
def PathSampleGenerator.peek (s : PathSampleGenerator) : ℚ := s.next1D.1

/-- The scaled density `density * sigmaT` sampled by the raymarching branch of
`inverseOpticalDepth`. -/
def scaledDensity (grid : FloatGrid) (sigmaT : ℚ) (q : Vec3f) : ℚ := gridAt grid q * sigmaT

/-- The threshold `xi` exceeds the optical depth of the whole segment, as the selected
sampling method accumulates it: every running sum of the per-cell contributions
(exact_nearest) or of the per-step trapezoids (raymarching) stays strictly below `xi`. -/
def StaysBelow (g : VdbGrid) (dda : VdbRaymarcher) (sampler : PathSampleGenerator)
    (p w : Vec3f) (t0 t1 sigmaT xi : ℚ) : Prop :=
  (g._sampleMethod = SampleMethod.ExactNearest →
    ∀ k, k < (dda.cells ⟨p.addScalar (1 / 2), w⟩ t0 t1).length →
      (((dda.cells ⟨p.addScalar (1 / 2), w⟩ t0 t1).take (k + 1)).map
        (cellDelta g._grid sigmaT)).sum < xi) ∧
  (g._sampleMethod = SampleMethod.Raymarching →
    ∀ k, trapezoidSum (stepNode t0 t1 g._stepSize sampler.peek)
      (loopSample (scaledDensity g._grid sigmaT) p w (stepNode t0 t1 g._stepSize sampler.peek))
      (k + 1) < xi)

/-- The origin, as ray origin `p`. -/
def origin : Vec3f := ⟨0, 0, 0⟩

/-- The unit vector along x, as ray direction `w`. -/
def xAxis : Vec3f := ⟨1, 0, 0⟩

/-- A field with the same density `c` in every voxel and at every point. -/
def constantField (c : ℚ) : FloatGrid := ⟨fun _ => c, fun _ => c⟩

/-- A linear ramp: the density at a point is its x coordinate. -/
def rampField : FloatGrid := ⟨fun v => v.x, fun q => q.x⟩

/-- A non-negative tent: voxels with `x = 1` hold 1, the others 0, and the interpolated
density is `max(0, 1 - |x - 1|)`. -/
def tentField : FloatGrid :=
  ⟨fun v => if v.x = 1 then 1 else 0, fun q => max 0 (1 - |q.x - 1|)⟩

/-- A grid as the constructor leaves it: both methods exact_nearest, step size 5. -/
def exactGrid (grid : FloatGrid) : VdbGrid :=
  ⟨"density", "exact_nearest", "exact_nearest", 5, IntegrationMethod.ExactNearest,
    SampleMethod.ExactNearest, grid, none, 1, 1, 1, 1, ⟨⟨0, 0, 0⟩, ⟨0, 0, 0⟩⟩⟩

/-- A grid configured with both methods raymarching and step size `h`. -/
def marchGrid (h : ℚ) (grid : FloatGrid) : VdbGrid :=
  ⟨"density", "raymarching", "raymarching", h, IntegrationMethod.Raymarching,
    SampleMethod.Raymarching, grid, none, 1, 1, 1, 1, ⟨⟨0, 0, 0⟩, ⟨0, 0, 0⟩⟩⟩

/-- A sample stream that hands out the same value `u` forever. -/
def constantStream (u : ℚ) : PathSampleGenerator := ⟨fun _ => u, 0⟩

/-- A marcher that reports two cells, splitting the segment in the middle. -/
def halvesMarcher : VdbRaymarcher :=
  ⟨fun _ t0 t1 => [⟨⟨0, 0, 0⟩, t0, (t0 + t1) / 2⟩, ⟨⟨1, 0, 0⟩, (t0 + t1) / 2, t1⟩]⟩

/-- A marcher that walks up to three cells of unit length from `t0`, clipped at `t1`. -/
def unitMarcher : VdbRaymarcher :=
  ⟨fun _ t0 t1 =>
    clipCells t1 [⟨⟨0, 0, 0⟩, t0, t0 + 1⟩, ⟨⟨1, 0, 0⟩, t0 + 1, t0 + 2⟩, ⟨⟨2, 0, 0⟩, t0 + 2, t0 + 3⟩]⟩


/-- The states of a `VdbGrid` reachable by construction and successful `fromJson` calls. -/
inductive Reachable : VdbGrid → Prop where
  | created (unloaded : FloatGrid) (g : VdbGrid) (h : VdbGrid.create unloaded = Except.ok g) :
    Reachable g
  | configured (g g' : VdbGrid) (v : JsonObject) (scene : Scene) (hg : Reachable g)
      (h : g.fromJson v scene = Except.ok g') : Reachable g'

/-- A method name the configuration accepts. -/
def AcceptedName (s : String) : Prop := s = "exact_nearest" ∨ s = "raymarching"

/-- A scene that resolves the `file` member to the string it holds. -/
def plainScene : Scene :=
  ⟨fun v field =>
    match v.lookup field with
    | some (JsonValue.string s) => some s
    | _ => none⟩

/-- A configuration naming a file and asking for raymarching sampling. -/
def smokeConfig : JsonObject :=
  [("file", JsonValue.string "smoke.vdb"), ("sampling_method", JsonValue.string "raymarching")]

/-- The grid a fresh `VdbGrid` becomes after `fromJson` on `smokeConfig`. -/
def smokeGrid : VdbGrid :=
  ⟨"density", "exact_nearest", "raymarching", 5, IntegrationMethod.ExactNearest,
    SampleMethod.Raymarching, constantField 1, some "smoke.vdb", 1, 1, 1, 1,
    ⟨⟨0, 0, 0⟩, ⟨0, 0, 0⟩⟩⟩

/-- The same grid with another step size. -/
def VdbGrid.withStepSize (g : VdbGrid) (h : ℚ) : VdbGrid :=
  ⟨g._gridName, g._integrationString, g._sampleString, h, g._integrationMethod, g._sampleMethod,
    g._grid, g._path, g._configTransform, g._invConfigTransform, g._transform, g._invTransform,
    g._bounds⟩

/-- Modelled from the spec: the invocations of the callback during a march of
`VdbRaymarcher.hpp`, each with the state the callback finds on entry; the march goes on
"while the caller continues" and ends "when the caller signals stop". -/
def marchEntries {σ : Type} (step : σ → Cell → σ × Bool) : List Cell → σ → List (σ × Cell)
  | [], _ => []
  | c :: cs, s =>
    let r := step s c
    (s, c) :: (if r.2 then [] else marchEntries step cs r.1)

/-- The corner `minP` of an index-space box, as a float vector. -/
def CoordBBox.minP (b : CoordBBox) : Vec3f := ⟨b.min.x, b.min.y, b.min.z⟩

/-- The corner `maxP` of an index-space box, as a float vector. -/
def CoordBBox.maxP (b : CoordBBox) : Vec3f := ⟨b.max.x, b.max.y, b.max.z⟩

/-- The extents `maxP - minP` of an index-space box along the three axes. -/
def CoordBBox.extent (b : CoordBBox) : Vec3f :=
  ⟨(b.max.x : ℚ) - b.min.x, (b.max.y : ℚ) - b.min.y, (b.max.z : ℚ) - b.min.z⟩

/-- The largest extent `m` of an index-space box. -/
def CoordBBox.largestExtent (b : CoordBBox) : ℚ := b.extent.max

/-- The translation `center = minP/m + 0.5*(ext.x, 0, ext.z)/m` of the normalisation. -/
def CoordBBox.center (b : CoordBBox) : Vec3f :=
  ⟨b.minP.x / b.largestExtent + 1 / 2 * b.extent.x / b.largestExtent,
    b.minP.y / b.largestExtent,
    b.minP.z / b.largestExtent + 1 / 2 * b.extent.z / b.largestExtent⟩

/-- An index-space box from `(2, 4, 6)` to `(6, 12, 8)`: extents `(4, 8, 2)`. -/
def sampleBBox : CoordBBox := ⟨⟨2, 4, 6⟩, ⟨6, 12, 8⟩⟩

/-- The extents `d = (maxP - minP)/m` of the normalised box. -/
def CoordBBox.normalisedExtent (b : CoordBBox) : Vec3f :=
  ⟨b.extent.x / b.largestExtent, b.extent.y / b.largestExtent, b.extent.z / b.largestExtent⟩

/-- Some primitive of the subtree is hit within `[tMin, tMax]` in a leaf reached through
boxes the ray enters no later than `tMax`. -/
def BVH4iIntersector1.anyHit (This : BVH4iIntersector1) (ray : Ray) : Node → Bool
  | Node.empty => false
  | Node.leaf tris => tris.any fun tri => (This.hitWithin ray ray.tMax tri).isSome
  | Node.inner b0 b1 b2 b3 c0 c1 c2 c3 =>
    (This.entered ray ray.tMax b0 && This.anyHit ray c0)
      || (This.entered ray ray.tMax b1 && This.anyHit ray c1)
      || (This.entered ray ray.tMax b2 && This.anyHit ray c2)
      || (This.entered ray ray.tMax b3 && This.anyHit ray c3)

/-- A triangle with all three corners at `(x, 0, 0)`, standing for the plane at `x`. -/
def planeAt (id : ℕ) (x : ℚ) : Triangle := ⟨id, ⟨x, 0, 0⟩, ⟨x, 0, 0⟩, ⟨x, 0, 0⟩⟩

/-- The slab from `x = a` to `x = b`. -/
def slab (a b : ℚ) : Box3f := ⟨⟨a, 0, 0⟩, ⟨b, 1, 1⟩⟩

/-- A traverser over two leaves, with tests that look at the x axis only: a triangle is
met where the ray reaches its plane, a box is entered where the ray reaches its near
face, and the box with the smaller near face is the nearer one. -/
def sampleTraverser : BVH4iIntersector1 :=
  ⟨Node.inner (slab 4 6) (slab 2 4) (slab 0 0) (slab 0 0)
      (Node.leaf [planeAt 9 5]) (Node.leaf [planeAt 7 3]) Node.empty Node.empty,
    fun tri ray => if ray.dir.x = 0 then none else some ((tri.v0.x - ray.org.x) / ray.dir.x),
    fun b ray => if ray.dir.x = 0 then none else some ((b.min.x - ray.org.x) / ray.dir.x),
    fun _ a b => decide (a.min.x ≤ b.min.x)⟩

/-- The ray from the origin along x over `[0, 10]`. -/
def sampleRay : Ray := ⟨origin, xAxis, 0, 10⟩
/-! ## Exact mode: the march as a sum over cells -/

theorem marchCells_accumulate (grid : FloatGrid) (cs : List Cell) (s : ℚ) :
    marchCells (fun (result : ℚ) (c : Cell) =>
        (result + grid.getValue c.voxel * (c.tb - c.ta), false)) cs s
      = s + (cs.map (cellIntegral grid)).sum := by
  induction cs generalizing s with
  | nil => simp [marchCells]
  | cons c cs ih =>
    simp only [marchCells, Bool.false_eq_true, if_false, ih, List.map_cons, List.sum_cons,
      cellIntegral]
    ring

theorem densityIntegral_exact (g : VdbGrid) (dda : VdbRaymarcher) (fuel : ℕ)
    (sampler : PathSampleGenerator) (p w : Vec3f) (t0 t1 : ℚ)
    (hm : g._integrationMethod = IntegrationMethod.ExactNearest) :
    g.densityIntegral dda fuel sampler p w t0 t1
      = (some (((dda.cells ⟨p.addScalar (1 / 2), w⟩ t0 t1).map (cellIntegral g._grid)).sum),
          sampler) := by
  simp [VdbGrid.densityIntegral, hm, VdbRaymarcher.march, marchCells_accumulate]

theorem densityIntegral_raymarching (g : VdbGrid) (dda : VdbRaymarcher) (fuel : ℕ)
    (sampler : PathSampleGenerator) (p w : Vec3f) (t0 t1 : ℚ)
    (hm : g._integrationMethod = IntegrationMethod.Raymarching) :
    g.densityIntegral dda fuel sampler p w t0 t1
      = (densityIntegralLoop g._grid p w t1 g._stepSize fuel t0 (gridAt g._grid p) 0
          (sampler.peek * g._stepSize), sampler.next1D.2) := by
  simp [VdbGrid.densityIntegral, hm, PathSampleGenerator.peek]

theorem sum_cellIntegral_degenerate (grid : FloatGrid) (cs : List Cell)
    (h : ∀ c ∈ cs, c.tb = c.ta) : (cs.map (cellIntegral grid)).sum = 0 := by
  induction cs with
  | nil => simp
  | cons c cs ih =>
    have hc := h c (List.mem_cons_self c cs)
    have hrest := ih fun d hd => h d (List.mem_cons_of_mem c hd)
    simp [cellIntegral, hc, hrest]

/-- C1: over the empty interval `[t0, t0]` `densityIntegral` returns 0 under both methods:
in exact_nearest mode for every cell sequence whose cells have `ta = tb = t0`, in
raymarching mode for every step size `> 0` and jitter `u` in `[0,1)`, after one pass of
the loop (any fuel of at least 1). -/
theorem densityIntegral_empty_interval (g : VdbGrid) (dda : VdbRaymarcher) (fuel : ℕ)
    (sampler : PathSampleGenerator) (p w : Vec3f) (t0 : ℚ)
    (hexact : g._integrationMethod = IntegrationMethod.ExactNearest →
      ∀ c ∈ dda.cells ⟨p.addScalar (1 / 2), w⟩ t0 t0, c.ta = t0 ∧ c.tb = t0)
    (hmarch : g._integrationMethod = IntegrationMethod.Raymarching →
      0 < g._stepSize ∧ 0 ≤ sampler.peek ∧ sampler.peek < 1)
    (hfuel : 1 ≤ fuel) :
    (g.densityIntegral dda fuel sampler p w t0 t0).1 = some 0 := by
  cases hm : g._integrationMethod with
  | ExactNearest =>
    rw [densityIntegral_exact g dda fuel sampler p w t0 t0 hm]
    have hz := sum_cellIntegral_degenerate g._grid _
      fun c hc => ((hexact hm c hc).2).trans ((hexact hm c hc).1).symm
    rw [hz]
  | Raymarching =>
    obtain ⟨hh, hu0, _⟩ := hmarch hm
    rw [densityIntegral_raymarching g dda fuel sampler p w t0 t0 hm]
    obtain ⟨n, rfl⟩ : ∃ n, fuel = n + 1 := ⟨fuel - 1, by omega⟩
    have hstep : 0 ≤ sampler.peek * g._stepSize := mul_nonneg hu0 hh.le
    have hmin : min (t0 + sampler.peek * g._stepSize) t0 = t0 := min_eq_right (by linarith)
    simp [densityIntegralLoop, hmin]


/-! ## The jittered step plan -/

theorem stepNode_succ_le (t0 t1 h u : ℚ) (k : ℕ) : stepNode t0 t1 h u (k + 1) ≤ t1 := by
  simp [stepNode]

theorem stepLength_succ (h u : ℚ) (k : ℕ) : stepLength h u (k + 1) = h := by
  simp [stepLength]

theorem stepNode_of_lt (t0 t1 h u : ℚ) (hh : 0 < h) :
    ∀ k, stepNode t0 t1 h u (k + 1) < t1 → stepNode t0 t1 h u (k + 1) = t0 + u * h + k * h := by
  intro k
  induction k with
  | zero =>
    intro hlt
    simp only [stepNode, stepLength, if_true] at hlt ⊢
    rw [min_lt_iff] at hlt
    rcases hlt with hlt | hlt
    · rw [min_eq_left hlt.le]; simp
    · exact absurd hlt (lt_irrefl _)
  | succ k ih =>
    intro hlt
    have hdef : stepNode t0 t1 h u (k + 1 + 1) = min (stepNode t0 t1 h u (k + 1) + h) t1 := by
      simp [stepNode, stepLength]
    rw [hdef] at hlt ⊢
    rw [min_lt_iff] at hlt
    rcases hlt with hlt | hlt
    · rw [min_eq_left hlt.le, ih (by linarith)]
      push_cast
      ring
    · exact absurd hlt (lt_irrefl _)

theorem stepNode_reaches_end (t0 t1 h u : ℚ) (hh : 0 < h) :
    ∃ K, ¬ stepNode t0 t1 h u (K + 1) < t1 := by
  obtain ⟨K, hK⟩ := exists_nat_ge ((t1 - t0 - u * h) / h)
  refine ⟨K, fun hlt => ?_⟩
  have heq := stepNode_of_lt t0 t1 h u hh K hlt
  rw [div_le_iff₀ hh] at hK
  rw [heq] at hlt
  linarith

/-! ## The raymarching loop of `densityIntegral` along the step plan -/

theorem densityIntegralLoop_node (grid : FloatGrid) (p w : Vec3f) (t0 t1 h u : ℚ) (n k : ℕ) :
    densityIntegralLoop grid p w t1 h (n + 1) (stepNode t0 t1 h u k)
        (loopSample (gridAt grid) p w (stepNode t0 t1 h u) k)
        (trapezoidSum (stepNode t0 t1 h u) (loopSample (gridAt grid) p w (stepNode t0 t1 h u)) k)
        (stepLength h u k)
      = if stepNode t0 t1 h u (k + 1) < t1 then
          densityIntegralLoop grid p w t1 h n (stepNode t0 t1 h u (k + 1))
            (loopSample (gridAt grid) p w (stepNode t0 t1 h u) (k + 1))
            (trapezoidSum (stepNode t0 t1 h u)
              (loopSample (gridAt grid) p w (stepNode t0 t1 h u)) (k + 1))
            (stepLength h u (k + 1))
        else
          some (trapezoidSum (stepNode t0 t1 h u)
            (loopSample (gridAt grid) p w (stepNode t0 t1 h u)) (k + 1)) := by
  have hs : loopSample (gridAt grid) p w (stepNode t0 t1 h u) (k + 1)
      = gridAt grid (p.add (w.scale (stepNode t0 t1 h u (k + 1)))) := by
    simp [loopSample]
  rw [hs, stepLength_succ]
  simp only [densityIntegralLoop, trapezoidSum, hs]
  rfl

theorem densityIntegralLoop_run (grid : FloatGrid) (p w : Vec3f) (t0 t1 h u : ℚ) :
    ∀ m k : ℕ, (∀ j, j < m → stepNode t0 t1 h u (k + j + 1) < t1) →
      ¬ stepNode t0 t1 h u (k + m + 1) < t1 →
      ∀ n, densityIntegralLoop grid p w t1 h (n + m + 1) (stepNode t0 t1 h u k)
          (loopSample (gridAt grid) p w (stepNode t0 t1 h u) k)
          (trapezoidSum (stepNode t0 t1 h u)
            (loopSample (gridAt grid) p w (stepNode t0 t1 h u)) k)
          (stepLength h u k)
        = some (trapezoidSum (stepNode t0 t1 h u)
            (loopSample (gridAt grid) p w (stepNode t0 t1 h u)) (k + m + 1)) := by
  intro m
  induction m with
  | zero =>
    intro k _ hexit n
    rw [densityIntegralLoop_node, if_neg hexit]
  | succ m ih =>
    intro k hbefore hexit n
    have h0 : stepNode t0 t1 h u (k + 1) < t1 := hbefore 0 (Nat.succ_pos m)
    have hidx : k + (m + 1) + 1 = k + 1 + m + 1 := by omega
    rw [show n + (m + 1) + 1 = (n + m + 1) + 1 by omega, densityIntegralLoop_node, if_pos h0,
      hidx]
    refine ih (k + 1) (fun j hj => ?_) (by rw [← hidx]; exact hexit) n
    have := hbefore (j + 1) (Nat.succ_lt_succ hj)
    rwa [show k + (j + 1) + 1 = k + 1 + j + 1 by omega] at this

/-- With a positive step size the raymarching loop of `densityIntegral` finishes: there is
a first step `K` whose end reaches `t1`, and with fuel above `K` the loop returns the
trapezoid sum of its samples over the first `K + 1` steps of the plan. -/
theorem densityIntegralLoop_result (grid : FloatGrid) (p w : Vec3f) (t0 t1 h u : ℚ)
    (hh : 0 < h) :
    ∃ K, (∀ j, j < K → stepNode t0 t1 h u (j + 1) < t1) ∧ stepNode t0 t1 h u (K + 1) = t1 ∧
      ∀ fuel, K + 1 ≤ fuel →
        densityIntegralLoop grid p w t1 h fuel t0 (gridAt grid p) 0 (u * h)
          = some (trapezoidSum (stepNode t0 t1 h u)
              (loopSample (gridAt grid) p w (stepNode t0 t1 h u)) (K + 1)) := by
  classical
  have hex := stepNode_reaches_end t0 t1 h u hh
  refine ⟨Nat.find hex, fun j hj => ?_, ?_, fun fuel hfuel => ?_⟩
  · exact not_not.mp (Nat.find_min hex hj)
  · exact le_antisymm (stepNode_succ_le t0 t1 h u _) (not_lt.mp (Nat.find_spec hex))
  · obtain ⟨n, rfl⟩ : ∃ n, fuel = n + Nat.find hex + 1 := ⟨fuel - (Nat.find hex + 1), by omega⟩
    have hrun := densityIntegralLoop_run grid p w t0 t1 h u (Nat.find hex) 0
      (fun j hj => by rw [Nat.zero_add]; exact not_not.mp (Nat.find_min hex hj))
      (by rw [Nat.zero_add]; exact Nat.find_spec hex) n
    rw [Nat.zero_add] at hrun
    simpa [stepNode, loopSample, trapezoidSum, stepLength] using hrun

/-! ## Exact mode -/

theorem sum_cellIntegral_constant (grid : FloatGrid) (c : ℚ) :
    ∀ (cs : List Cell) (a b : ℚ), (∀ cell ∈ cs, grid.getValue cell.voxel = c) → Tiles cs a b →
      (cs.map (cellIntegral grid)).sum = c * (b - a) := by
  intro cs
  induction cs with
  | nil =>
    intro a b _ ht
    simp only [Tiles] at ht
    simp [ht]
  | cons cell cs ih =>
    intro a b hval ht
    obtain ⟨hstart, hrest⟩ := ht
    have hc := hval cell (List.mem_cons_self cell cs)
    have hsum := ih cell.tb b (fun d hd => hval d (List.mem_cons_of_mem cell hd)) hrest
    simp only [List.map_cons, List.sum_cons, hsum, cellIntegral, hc, hstart]
    ring

/-- C3: in exact_nearest mode, if every voxel the marcher visits has value `c` and the
visited cells tile `[t0, t1]` (first `ta = t0`, each `tb` the next `ta`, last `tb = t1`),
`densityIntegral` returns exactly `c * (t1 - t0)`, whatever the number of cells. -/
theorem densityIntegral_constant_block (g : VdbGrid) (dda : VdbRaymarcher) (fuel : ℕ)
    (sampler : PathSampleGenerator) (p w : Vec3f) (t0 t1 c : ℚ)
    (hm : g._integrationMethod = IntegrationMethod.ExactNearest)
    (hval : ∀ cell ∈ dda.cells ⟨p.addScalar (1 / 2), w⟩ t0 t1, g._grid.getValue cell.voxel = c)
    (htile : Tiles (dda.cells ⟨p.addScalar (1 / 2), w⟩ t0 t1) t0 t1) :
    (g.densityIntegral dda fuel sampler p w t0 t1).1 = some (c * (t1 - t0)) := by
  rw [densityIntegral_exact g dda fuel sampler p w t0 t1 hm,
    sum_cellIntegral_constant g._grid c _ t0 t1 hval htile]

theorem inverseOpticalDepth_exact (g : VdbGrid) (dda : VdbRaymarcher) (sqrt : ℚ → ℚ) (fuel : ℕ)
    (sampler : PathSampleGenerator) (p w : Vec3f) (t0 t1 sigmaT xi : ℚ)
    (hm : g._sampleMethod = SampleMethod.ExactNearest) :
    g.inverseOpticalDepth dda sqrt fuel sampler p w t0 t1 sigmaT xi
      = ((marchCells (inverseStep g._grid sigmaT xi) (dda.cells ⟨p.addScalar (1 / 2), w⟩ t0 t1)
          (ExactState.mk 0 (Except.ok ⟨t1, 0⟩))).result, sampler) := by
  simp [VdbGrid.inverseOpticalDepth, hm, VdbRaymarcher.march]

theorem inverseOpticalDepth_raymarching (g : VdbGrid) (dda : VdbRaymarcher) (sqrt : ℚ → ℚ)
    (fuel : ℕ) (sampler : PathSampleGenerator) (p w : Vec3f) (t0 t1 sigmaT xi : ℚ)
    (hm : g._sampleMethod = SampleMethod.Raymarching) :
    g.inverseOpticalDepth dda sqrt fuel sampler p w t0 t1 sigmaT xi
      = (inverseOpticalDepthLoop sqrt g._grid p w t1 sigmaT xi g._stepSize fuel t0
          (gridAt g._grid p * sigmaT) 0 (sampler.peek * g._stepSize), sampler.next1D.2) := by
  simp [VdbGrid.inverseOpticalDepth, hm, PathSampleGenerator.peek]

/-- C6: in exact_nearest mode, if the first voxel the marcher reports has span `ta < tb`
and value `v` with contribution `delta = v*sigmaT*(tb - ta) > 0`, then for every `xi`
with `0 < xi < delta` `inverseOpticalDepth` returns a pair `(d, v)` with `ta < d < tb`. -/
theorem inverseOpticalDepth_first_voxel (g : VdbGrid) (dda : VdbRaymarcher) (sqrt : ℚ → ℚ)
    (fuel : ℕ) (sampler : PathSampleGenerator) (p w : Vec3f) (t0 t1 sigmaT xi : ℚ)
    (c : Cell) (rest : List Cell)
    (hm : g._sampleMethod = SampleMethod.ExactNearest)
    (hcells : dda.cells ⟨p.addScalar (1 / 2), w⟩ t0 t1 = c :: rest)
    (hspan : c.ta < c.tb)
    (hdelta : 0 < g._grid.getValue c.voxel * sigmaT * (c.tb - c.ta))
    (hxi0 : 0 < xi)
    (hxi : xi < g._grid.getValue c.voxel * sigmaT * (c.tb - c.ta)) :
    ∃ d, (g.inverseOpticalDepth dda sqrt fuel sampler p w t0 t1 sigmaT xi).1
        = Except.ok ⟨d, g._grid.getValue c.voxel⟩ ∧ c.ta < d ∧ d < c.tb := by
  rw [inverseOpticalDepth_exact g dda sqrt fuel sampler p w t0 t1 sigmaT xi hm, hcells]
  set delta := g._grid.getValue c.voxel * sigmaT * (c.tb - c.ta) with hd
  have hne : delta ≠ 0 := hdelta.ne'
  have hlen : 0 < c.tb - c.ta := sub_pos.mpr hspan
  refine ⟨c.ta + (c.tb - c.ta) * (xi - 0) / delta, ?_, ?_, ?_⟩
  · have hcross : (0 : ℚ) + delta ≥ xi := by linarith
    simp only [marchCells, inverseStep, ← hd, if_pos hcross, if_true, fdiv, if_neg hne,
      Except.map]
  · have : 0 < (c.tb - c.ta) * (xi - 0) / delta := by
      rw [sub_zero]; exact div_pos (mul_pos hlen hxi0) hdelta
    linarith
  · have : (c.tb - c.ta) * (xi - 0) / delta < c.tb - c.ta := by
      rw [sub_zero, div_lt_iff₀ hdelta]
      exact mul_lt_mul_of_pos_left hxi hlen
    linarith

/-! ## The raymarching loop of `inverseOpticalDepth` along the step plan -/

theorem stepLength_nonneg (h u : ℚ) (hh : 0 ≤ h) (hu : 0 ≤ u) (k : ℕ) : 0 ≤ stepLength h u k := by
  unfold stepLength
  split
  · exact mul_nonneg hu hh
  · exact hh

theorem stepNode_le_end (t0 t1 h u : ℚ) (h01 : t0 ≤ t1) (k : ℕ) : stepNode t0 t1 h u k ≤ t1 := by
  cases k with
  | zero => exact h01
  | succ k => exact stepNode_succ_le t0 t1 h u k

theorem stepNode_le_succ (t0 t1 h u : ℚ) (hh : 0 ≤ h) (hu : 0 ≤ u) (h01 : t0 ≤ t1) (k : ℕ) :
    stepNode t0 t1 h u k ≤ stepNode t0 t1 h u (k + 1) := by
  have hlen := stepLength_nonneg h u hh hu k
  have hend := stepNode_le_end t0 t1 h u h01 k
  show stepNode t0 t1 h u k ≤ min (stepNode t0 t1 h u k + stepLength h u k) t1
  exact le_min (by linarith) hend

theorem stepNode_mono (t0 t1 h u : ℚ) (hh : 0 ≤ h) (hu : 0 ≤ u) (h01 : t0 ≤ t1) :
    Monotone (stepNode t0 t1 h u) :=
  monotone_nat_of_le_succ (stepNode_le_succ t0 t1 h u hh hu h01)

theorem stepNode_stuck (t0 t1 h u : ℚ) (hh : 0 ≤ h) (hu : 0 ≤ u) (j : ℕ)
    (hj : stepNode t0 t1 h u j = t1) : ∀ i, j ≤ i → stepNode t0 t1 h u i = t1 := by
  intro i hi
  induction i, hi using Nat.le_induction with
  | base => exact hj
  | succ i _ ih =>
    have hlen := stepLength_nonneg h u hh hu i
    show min (stepNode t0 t1 h u i + stepLength h u i) t1 = t1
    rw [ih]
    exact min_eq_right (by linarith)

theorem trapezoidSum_stuck (node samp : ℕ → ℚ) (j : ℕ)
    (hstuck : ∀ i, j ≤ i → node (i + 1) = node i) :
    ∀ i, j ≤ i → trapezoidSum node samp i = trapezoidSum node samp j := by
  intro i hi
  induction i, hi using Nat.le_induction with
  | base => rfl
  | succ i hle ih => rw [trapezoidSum, ih, hstuck i hle]; ring

theorem trapezoidSum_le_of_terms (node samp node' samp' : ℕ → ℚ)
    (hterm : ∀ k, (samp k + samp (k + 1)) * (1 / 2) * (node (k + 1) - node k)
      ≤ (samp' k + samp' (k + 1)) * (1 / 2) * (node' (k + 1) - node' k)) :
    ∀ n, trapezoidSum node samp n ≤ trapezoidSum node' samp' n := by
  intro n
  induction n with
  | zero => exact le_refl _
  | succ n ih => exact add_le_add ih (hterm n)

/-- Upper bound of the trapezoid sums of a non-decreasing plan by the largest sample. -/
theorem trapezoidSum_le_bound (node samp : ℕ → ℚ) (M : ℚ) (hs : ∀ k, samp k ≤ M)
    (hmono : ∀ k, node k ≤ node (k + 1)) :
    ∀ n, trapezoidSum node samp n ≤ M * (node n - node 0) := by
  intro n
  induction n with
  | zero => simp [trapezoidSum]
  | succ n ih =>
    have hd : 0 ≤ node (n + 1) - node n := sub_nonneg.mpr (hmono n)
    have havg : (samp n + samp (n + 1)) * (1 / 2) ≤ M := by linarith [hs n, hs (n + 1)]
    have hterm := mul_le_mul_of_nonneg_right havg hd
    rw [trapezoidSum]
    linarith

/-- A sufficient condition for escaping in raymarching mode: `xi` above the largest
scaled sample times the length of the segment. -/
theorem trapezoidSum_lt_of_bound (f : Vec3f → ℚ) (p w : Vec3f) (t0 t1 h u M xi : ℚ)
    (hh : 0 ≤ h) (hu : 0 ≤ u) (h01 : t0 ≤ t1) (hM : 0 ≤ M) (hf : ∀ q, f q ≤ M)
    (hxi : M * (t1 - t0) < xi) (n : ℕ) :
    trapezoidSum (stepNode t0 t1 h u) (loopSample f p w (stepNode t0 t1 h u)) n < xi := by
  have hb := trapezoidSum_le_bound (stepNode t0 t1 h u) (loopSample f p w (stepNode t0 t1 h u)) M
    (fun k => by unfold loopSample; split <;> exact hf _)
    (stepNode_le_succ t0 t1 h u hh hu h01) n
  have hend := stepNode_le_end t0 t1 h u h01 n
  have h0 : stepNode t0 t1 h u 0 = t0 := rfl
  rw [h0] at hb
  have : M * (stepNode t0 t1 h u n - t0) ≤ M * (t1 - t0) :=
    mul_le_mul_of_nonneg_left (by linarith) hM
  linarith

/-! ## Monotonicity in `t1` -/

theorem sum_clipCells_le (grid : FloatGrid) (t1 : ℚ) (hpos : ∀ v, 0 ≤ grid.getValue v) :
    ∀ cs : List Cell, (∀ c ∈ cs, c.ta ≤ c.tb) →
      ((clipCells t1 cs).map (cellIntegral grid)).sum ≤ (cs.map (cellIntegral grid)).sum := by
  intro cs
  induction cs with
  | nil => intro _; simp [clipCells]
  | cons c cs ih =>
    intro hord
    have hc := hord c (List.mem_cons_self c cs)
    have hrest := ih fun d hd => hord d (List.mem_cons_of_mem c hd)
    have hv := hpos c.voxel
    have hwhole : 0 ≤ grid.getValue c.voxel * (c.tb - c.ta) :=
      mul_nonneg hv (sub_nonneg.mpr hc)
    have hcut : grid.getValue c.voxel * (min c.tb t1 - c.ta)
        ≤ grid.getValue c.voxel * (c.tb - c.ta) :=
      mul_le_mul_of_nonneg_left (by linarith [min_le_left c.tb t1]) hv
    unfold clipCells at hrest ⊢
    by_cases hin : c.ta < t1
    · simp only [List.filter_cons, hin, decide_True, if_true, List.map_cons, List.sum_cons,
        cellIntegral] at hrest ⊢
      linarith
    · simp only [List.filter_cons, hin, decide_False, Bool.false_eq_true, if_false,
        List.map_cons, List.sum_cons, cellIntegral] at hrest ⊢
      linarith

/-- When `t1` is a node of the plan for `[t0, t1']`, the plan for `[t0, t1]` follows the
longer plan up to that node and stays at `t1` afterwards. -/
theorem stepNode_shared (t0 t1 t1' h u : ℚ) (hh : 0 ≤ h) (hu : 0 ≤ u) (h01 : t0 ≤ t1)
    (h11 : t1 ≤ t1') (m : ℕ) (hm : stepNode t0 t1' h u m = t1) :
    (∀ j, j ≤ m → stepNode t0 t1 h u j = stepNode t0 t1' h u j) ∧
      ∀ j, m ≤ j → stepNode t0 t1 h u j = t1 := by
  have hmono := stepNode_mono t0 t1' h u hh hu (h01.trans h11)
  have hpre : ∀ j, j ≤ m → stepNode t0 t1 h u j = stepNode t0 t1' h u j := by
    intro j
    induction j with
    | zero => intro _; rfl
    | succ j ih =>
      intro hj
      have hprev := ih (Nat.le_of_succ_le hj)
      have hle : stepNode t0 t1' h u (j + 1) ≤ t1 := hm ▸ hmono hj
      show min (stepNode t0 t1 h u j + stepLength h u j) t1
        = min (stepNode t0 t1' h u j + stepLength h u j) t1'
      have hle' : min (stepNode t0 t1' h u j + stepLength h u j) t1' ≤ t1 := hle
      rw [hprev]
      rcases le_total (stepNode t0 t1' h u j + stepLength h u j) t1' with hx | hx
      · rw [min_eq_left hx] at hle' ⊢
        exact min_eq_left hle'
      · rw [min_eq_right hx] at hle' ⊢
        have : t1 = t1' := le_antisymm h11 hle'
        rw [this]
        exact min_eq_right hx
  exact ⟨hpre, stepNode_stuck t0 t1 h u hh hu m ((hpre m le_rfl).trans hm)⟩

theorem loopSample_nonneg (f : Vec3f → ℚ) (p w : Vec3f) (node : ℕ → ℚ) (hf : ∀ q, 0 ≤ f q)
    (k : ℕ) : 0 ≤ loopSample f p w node k := by
  unfold loopSample
  split <;> exact hf _

theorem trapezoidSum_shorter_le (f : Vec3f → ℚ) (p w : Vec3f) (t0 t1 t1' h u : ℚ)
    (hf : ∀ q, 0 ≤ f q) (hh : 0 ≤ h) (hu : 0 ≤ u) (h01 : t0 ≤ t1) (h11 : t1 ≤ t1') (m : ℕ)
    (hm : stepNode t0 t1' h u m = t1) (n : ℕ) :
    trapezoidSum (stepNode t0 t1 h u) (loopSample f p w (stepNode t0 t1 h u)) n
      ≤ trapezoidSum (stepNode t0 t1' h u) (loopSample f p w (stepNode t0 t1' h u)) n := by
  obtain ⟨hpre, hpost⟩ := stepNode_shared t0 t1 t1' h u hh hu h01 h11 m hm
  refine trapezoidSum_le_of_terms _ _ _ _ (fun k => ?_) n
  rcases Nat.lt_or_ge k m with hk | hk
  · have e0 := hpre k hk.le
    have e1 := hpre (k + 1) hk
    have s0 : loopSample f p w (stepNode t0 t1 h u) k
        = loopSample f p w (stepNode t0 t1' h u) k := by
      unfold loopSample; rw [e0]
    have s1 : loopSample f p w (stepNode t0 t1 h u) (k + 1)
        = loopSample f p w (stepNode t0 t1' h u) (k + 1) := by
      unfold loopSample; rw [e1]
    rw [e0, e1, s0, s1]
  · rw [hpost k hk, hpost (k + 1) (Nat.le_succ_of_le hk), sub_self, mul_zero]
    have hd := stepNode_le_succ t0 t1' h u hh hu (h01.trans h11) k
    have ha := loopSample_nonneg f p w (stepNode t0 t1' h u) hf k
    have hb := loopSample_nonneg f p w (stepNode t0 t1' h u) hf (k + 1)
    exact mul_nonneg (mul_nonneg (by linarith) (by norm_num)) (sub_nonneg.mpr hd)

/-- The value the raymarching loop of `densityIntegral` returns is the trapezoid sum of
the plan, taken over any number of steps that covers the plan. -/
theorem densityIntegralLoop_result_any (grid : FloatGrid) (p w : Vec3f) (t0 t1 h u : ℚ)
    (hh : 0 < h) (hu : 0 ≤ u) :
    ∃ K, ∀ fuel, K ≤ fuel → ∀ n, K ≤ n →
      densityIntegralLoop grid p w t1 h fuel t0 (gridAt grid p) 0 (u * h)
        = some (trapezoidSum (stepNode t0 t1 h u)
            (loopSample (gridAt grid) p w (stepNode t0 t1 h u)) n) := by
  obtain ⟨K, _, hend, hrun⟩ := densityIntegralLoop_result grid p w t0 t1 h u hh
  refine ⟨K + 1, fun fuel hfuel n hn => ?_⟩
  have hstuck : ∀ i, K + 1 ≤ i → stepNode t0 t1 h u (i + 1) = stepNode t0 t1 h u i := by
    intro i hi
    rw [stepNode_stuck t0 t1 h u hh.le hu (K + 1) hend i hi,
      stepNode_stuck t0 t1 h u hh.le hu (K + 1) hend (i + 1) (Nat.le_succ_of_le hi)]
  rw [hrun fuel hfuel, trapezoidSum_stuck _ _ (K + 1) hstuck n hn]

/-- C2 (amended): for a density field that is non-negative everywhere and `t0 <= t1 <= t1'`,
`densityIntegral(t0, t1) <= densityIntegral(t0, t1')` in exact_nearest mode when the
cells for `[t0, t1]` are the cells for `[t0, t1']` clipped at `t1`, and in raymarching
mode (step size `> 0`, jitter `u >= 0`) when `t1` is one of the nodes of the step plan
for `[t0, t1']`. -/
theorem densityIntegral_monotone (g : VdbGrid) (dda : VdbRaymarcher)
    (sampler : PathSampleGenerator) (p w : Vec3f) (t0 t1 t1' : ℚ)
    (h01 : t0 ≤ t1) (h11 : t1 ≤ t1')
    (hexact : g._integrationMethod = IntegrationMethod.ExactNearest →
      (∀ v, 0 ≤ g._grid.getValue v) ∧
      (∀ c ∈ dda.cells ⟨p.addScalar (1 / 2), w⟩ t0 t1', c.ta ≤ c.tb) ∧
      dda.cells ⟨p.addScalar (1 / 2), w⟩ t0 t1
        = clipCells t1 (dda.cells ⟨p.addScalar (1 / 2), w⟩ t0 t1'))
    (hmarch : g._integrationMethod = IntegrationMethod.Raymarching →
      (∀ q, 0 ≤ g._grid.boxSample q) ∧ 0 < g._stepSize ∧ 0 ≤ sampler.peek ∧
      ∃ m, stepNode t0 t1' g._stepSize sampler.peek m = t1) :
    ∃ N r r', r ≤ r' ∧ ∀ fuel, N ≤ fuel →
      (g.densityIntegral dda fuel sampler p w t0 t1).1 = some r ∧
      (g.densityIntegral dda fuel sampler p w t0 t1').1 = some r' := by
  cases hm : g._integrationMethod with
  | ExactNearest =>
    obtain ⟨hpos, hord, hclip⟩ := hexact hm
    refine ⟨0, _, _, ?_, fun fuel _ =>
      ⟨by rw [densityIntegral_exact g dda fuel sampler p w t0 t1 hm],
        by rw [densityIntegral_exact g dda fuel sampler p w t0 t1' hm]⟩⟩
    rw [hclip]
    exact sum_clipCells_le g._grid t1 hpos _ hord
  | Raymarching =>
    obtain ⟨hpos, hh, hu, m, hnode⟩ := hmarch hm
    obtain ⟨K, hK⟩ := densityIntegralLoop_result_any g._grid p w t0 t1 g._stepSize
      sampler.peek hh hu
    obtain ⟨K', hK'⟩ := densityIntegralLoop_result_any g._grid p w t0 t1' g._stepSize
      sampler.peek hh hu
    have hle := trapezoidSum_shorter_le (gridAt g._grid) p w t0 t1 t1' g._stepSize sampler.peek
      hpos hh.le hu h01 h11 m hnode (max K K')
    refine ⟨max K K', _, _, hle, fun fuel hfuel => ?_⟩
    rw [densityIntegral_raymarching g dda fuel sampler p w t0 t1 hm,
      densityIntegral_raymarching g dda fuel sampler p w t0 t1' hm]
    exact ⟨hK fuel ((le_max_left K K').trans hfuel) _ (le_max_left K K'),
      hK' fuel ((le_max_right K K').trans hfuel) _ (le_max_right K K')⟩

/-! ## The exact rational loops as instances of the general ones -/

/-- In exact arithmetic over the rationals the general crossing solve is `solveCrossing`. -/
theorem solveCrossing_eq_over (sqrt : ℚ → ℚ) (ta tb fa fb integral xi : ℚ) :
    solveCrossing sqrt ta tb fa fb integral xi
      = (solveCrossingOver id sqrt ta tb fa fb integral xi).map fun r => ⟨r.1, r.2⟩ := by
  simp only [solveCrossing, solveCrossingOver, fdiv, fdivOver, id]
  by_cases h1 : tb - ta = 0
  · simp only [if_pos h1]; rfl
  · simp only [if_neg h1]
    by_cases h2 : fb - fa = 0
    · simp only [if_pos h2]; rfl
    · simp only [if_neg h2]; rfl

/-- In exact arithmetic over the rationals the general loop of `inverseOpticalDepth` is
`inverseOpticalDepthLoop`. -/
theorem inverseOpticalDepthLoop_eq_over (sqrt : ℚ → ℚ) (grid : FloatGrid) (p w : Vec3f)
    (t1 sigmaT xi h : ℚ) :
    ∀ (fuel : ℕ) (ta fa integral dT : ℚ),
      inverseOpticalDepthLoop sqrt grid p w t1 sigmaT xi h fuel ta fa integral dT
        = (inverseOpticalDepthLoopOver id sqrt (fun v => gridAt grid ⟨v.x, v.y, v.z⟩)
            ⟨p.x, p.y, p.z⟩ ⟨w.x, w.y, w.z⟩ t1 sigmaT xi h fuel ta fa integral dT).map
            fun r => ⟨r.1, r.2⟩ := by
  intro fuel
  induction fuel with
  | zero => intro _ _ _ _; rfl
  | succ fuel ih =>
    intro ta fa integral dT
    simp only [inverseOpticalDepthLoop, inverseOpticalDepthLoopOver, id, Vec3.along, Vec3f.add,
      Vec3f.scale]
    split
    · exact solveCrossing_eq_over _ _ _ _ _ _ _
    · split
      · exact ih _ _ _ _
      · rfl

/-- In exact arithmetic over the rationals the general loop of `densityIntegral` is
`densityIntegralLoop`. -/
theorem densityIntegralLoop_eq_over (grid : FloatGrid) (p w : Vec3f) (t1 h : ℚ) :
    ∀ (fuel : ℕ) (ta fa integral dT : ℚ),
      densityIntegralLoop grid p w t1 h fuel ta fa integral dT
        = densityIntegralLoopOver id (fun v => gridAt grid ⟨v.x, v.y, v.z⟩)
            ⟨p.x, p.y, p.z⟩ ⟨w.x, w.y, w.z⟩ t1 h fuel ta fa integral dT := by
  intro fuel
  induction fuel with
  | zero => intro _ _ _ _; rfl
  | succ fuel ih =>
    intro ta fa integral dT
    simp only [densityIntegralLoop, densityIntegralLoopOver, id, Vec3.along, Vec3f.add,
      Vec3f.scale]
    split
    · exact ih _ _ _ _
    · rfl

/-! ## The crossing step of the raymarching branch of `inverseOpticalDepth` -/

/-- The crossing step has no fallback for a flat step: whenever the step crosses with
equal scaled samples `fa = fb`, the solve divides by `a = fb - fa = 0` (or already by
`tb - ta = 0`) and the loop returns no number. -/
theorem inverseOpticalDepthLoop_flat_crossing (sqrt : ℚ → ℚ) (grid : FloatGrid) (p w : Vec3f)
    (t1 sigmaT xi h : ℚ) (n : ℕ) (ta fa integral dT : ℚ)
    (hflat : gridAt grid (p.add (w.scale (min (ta + dT) t1))) * sigmaT = fa)
    (hcross : xi ≤ integral + (fa + fa) * (1 / 2) * (min (ta + dT) t1 - ta)) :
    inverseOpticalDepthLoop sqrt grid p w t1 sigmaT xi h (n + 1) ta fa integral dT
      = Except.error Fault.divByZero := by
  simp only [inverseOpticalDepthLoop, hflat]
  rw [if_pos (show _ ≥ xi from hcross)]
  by_cases hL : min (ta + dT) t1 - ta = 0
  · simp only [solveCrossing, fdiv, if_pos hL]
  · simp only [solveCrossing, fdiv, if_neg hL, sub_self, if_true]

theorem densityIntegral_empty_interval_witness :
    ((exactGrid rampField).densityIntegral halvesMarcher 1 (constantStream (1 / 2))
        origin xAxis 3 3).1 = some 0 ∧
      ((marchGrid 1 rampField).densityIntegral halvesMarcher 1 (constantStream (1 / 2))
        origin xAxis 3 3).1 = some 0 :=
  ⟨densityIntegral_empty_interval (exactGrid rampField) halvesMarcher 1 (constantStream (1 / 2))
      origin xAxis 3
      (fun _ c hc => by
        simp only [halvesMarcher, List.mem_cons, List.mem_singleton, List.not_mem_nil,
          or_false] at hc
        rcases hc with rfl | rfl <;> norm_num)
      (fun hm => by simp [exactGrid] at hm) le_rfl,
    densityIntegral_empty_interval (marchGrid 1 rampField) halvesMarcher 1
      (constantStream (1 / 2)) origin xAxis 3
      (fun hm => by simp [marchGrid] at hm)
      (fun _ => by
        norm_num [marchGrid, constantStream, PathSampleGenerator.peek,
          PathSampleGenerator.next1D])
      le_rfl⟩

theorem densityIntegral_constant_block_witness :
    ((exactGrid (constantField 2)).densityIntegral halvesMarcher 0 (constantStream (1 / 2))
        origin xAxis 1 4).1 = some (2 * (4 - 1)) :=
  densityIntegral_constant_block (exactGrid (constantField 2)) halvesMarcher 0
    (constantStream (1 / 2)) origin xAxis 1 4 2 rfl
    (fun _ _ => rfl)
    (by simp [halvesMarcher, Tiles])

theorem inverseOpticalDepth_first_voxel_witness :
    ∃ d, ((exactGrid (constantField 1)).inverseOpticalDepth halvesMarcher Rat.sqrt 0
        (constantStream (1 / 2)) origin xAxis 0 2 1 (1 / 2)).1
          = Except.ok ⟨d, 1⟩ ∧ (0 : ℚ) < d ∧ d < (0 + 2) / 2 :=
  inverseOpticalDepth_first_voxel (exactGrid (constantField 1)) halvesMarcher Rat.sqrt 0
    (constantStream (1 / 2)) origin xAxis 0 2 1 (1 / 2)
    ⟨⟨0, 0, 0⟩, 0, (0 + 2) / 2⟩ [⟨⟨1, 0, 0⟩, (0 + 2) / 2, 2⟩] rfl rfl
    (by norm_num) (by norm_num [exactGrid, constantField]) (by norm_num)
    (by norm_num [exactGrid, constantField])

/-- C2 fails as stated in raymarching mode: on the non-negative tent field, with step
size 4 and jitter 1/2, the integral over `[0, 1]` is `1/2` and the integral over the
longer segment `[0, 2]` is `0`. -/
theorem densityIntegral_not_monotone :
    (∀ q, 0 ≤ tentField.boxSample q) ∧
      ((marchGrid 4 tentField).densityIntegral halvesMarcher 1 (constantStream (1 / 2))
        origin xAxis 0 1).1 = some (1 / 2) ∧
      ((marchGrid 4 tentField).densityIntegral halvesMarcher 1 (constantStream (1 / 2))
        origin xAxis 0 2).1 = some 0 ∧
      ¬ ((1 : ℚ) / 2 ≤ 0) := by
  refine ⟨fun q => le_max_left _ _, ?_, ?_, by norm_num⟩
  · rw [densityIntegral_raymarching (marchGrid 4 tentField) _ _ _ _ _ _ _ rfl]
    norm_num [marchGrid, densityIntegralLoop, constantStream, PathSampleGenerator.peek,
      PathSampleGenerator.next1D, gridAt, tentField, origin, xAxis, Vec3f.add, Vec3f.scale]
  · rw [densityIntegral_raymarching (marchGrid 4 tentField) _ _ _ _ _ _ _ rfl]
    norm_num [marchGrid, densityIntegralLoop, constantStream, PathSampleGenerator.peek,
      PathSampleGenerator.next1D, gridAt, tentField, origin, xAxis, Vec3f.add, Vec3f.scale]

theorem densityIntegral_monotone_witness :
    (∃ N r r', r ≤ r' ∧ ∀ fuel, N ≤ fuel →
      ((exactGrid (constantField 1)).densityIntegral unitMarcher fuel (constantStream (1 / 2))
          origin xAxis 0 (3 / 2)).1 = some r ∧
      ((exactGrid (constantField 1)).densityIntegral unitMarcher fuel (constantStream (1 / 2))
          origin xAxis 0 3).1 = some r') ∧
    (∃ N r r', r ≤ r' ∧ ∀ fuel, N ≤ fuel →
      ((marchGrid 1 (constantField 1)).densityIntegral unitMarcher fuel (constantStream (1 / 2))
          origin xAxis 0 (3 / 2)).1 = some r ∧
      ((marchGrid 1 (constantField 1)).densityIntegral unitMarcher fuel (constantStream (1 / 2))
          origin xAxis 0 3).1 = some r') :=
  ⟨densityIntegral_monotone (exactGrid (constantField 1)) unitMarcher (constantStream (1 / 2))
      origin xAxis 0 (3 / 2) 3 (by norm_num) (by norm_num)
      (fun _ => ⟨fun _ => by norm_num [exactGrid, constantField],
        fun c hc => by
          simp only [unitMarcher, clipCells] at hc
          norm_num [List.filter] at hc
          rcases hc with rfl | rfl | rfl <;> norm_num,
        by norm_num [unitMarcher, clipCells, List.filter]⟩)
      (fun hm => by simp [exactGrid] at hm),
    densityIntegral_monotone (marchGrid 1 (constantField 1)) unitMarcher (constantStream (1 / 2))
      origin xAxis 0 (3 / 2) 3 (by norm_num) (by norm_num)
      (fun hm => by simp [marchGrid] at hm)
      (fun _ => ⟨fun _ => by norm_num [marchGrid, constantField],
        by norm_num [marchGrid],
        by norm_num [constantStream, PathSampleGenerator.peek, PathSampleGenerator.next1D],
        2, by
          norm_num [marchGrid, constantStream, PathSampleGenerator.peek,
            PathSampleGenerator.next1D, stepNode, stepLength]⟩)⟩

theorem staysBelow_exact_sample :
    StaysBelow (exactGrid (constantField 1)) halvesMarcher (constantStream (1 / 2))
      origin xAxis 0 2 1 5 := by
  refine ⟨fun _ k hk => ?_, fun hm => by simp [exactGrid] at hm⟩
  simp only [halvesMarcher, List.length_cons, List.length_nil] at hk
  interval_cases k <;> norm_num [halvesMarcher, cellDelta, exactGrid, constantField]

theorem staysBelow_march_sample :
    StaysBelow (marchGrid 1 (constantField 1)) halvesMarcher (constantStream (1 / 2))
      origin xAxis 0 2 3 7 := by
  refine ⟨fun hm => by simp [marchGrid] at hm, fun _ k => ?_⟩
  exact trapezoidSum_lt_of_bound _ origin xAxis 0 2 _ _ 3 7
    (by norm_num [marchGrid])
    (by norm_num [constantStream, PathSampleGenerator.peek, PathSampleGenerator.next1D])
    (by norm_num) (by norm_num)
    (fun q => by norm_num [scaledDensity, gridAt, marchGrid, constantField])
    (by norm_num) (k + 1)

/-- C5 fails on the code: on the field of constant density 1, with `xi` above the optical
depth of `[0, 2]`, exact_nearest mode returns `(2, 0)` and raymarching mode with
`sigmaT = 3` returns `(2, 3)`, while the density at the end point `p + w*t1` is 1.  The
two branches of the same function disagree with each other and with the claim. -/
theorem inverseOpticalDepth_escape_density_differs :
    StaysBelow (exactGrid (constantField 1)) halvesMarcher (constantStream (1 / 2))
        origin xAxis 0 2 1 5 ∧
      ((exactGrid (constantField 1)).inverseOpticalDepth halvesMarcher Rat.sqrt 0
        (constantStream (1 / 2)) origin xAxis 0 2 1 5).1 = Except.ok ⟨2, 0⟩ ∧
      (exactGrid (constantField 1)).density (origin.add (xAxis.scale 2)) = 1 ∧
      StaysBelow (marchGrid 1 (constantField 1)) halvesMarcher (constantStream (1 / 2))
        origin xAxis 0 2 3 7 ∧
      ((marchGrid 1 (constantField 1)).inverseOpticalDepth halvesMarcher Rat.sqrt 3
        (constantStream (1 / 2)) origin xAxis 0 2 3 7).1 = Except.ok ⟨2, 3⟩ ∧
      (marchGrid 1 (constantField 1)).density (origin.add (xAxis.scale 2)) = 1 := by
  refine ⟨staysBelow_exact_sample, ?_, rfl, staysBelow_march_sample, ?_, rfl⟩
  · rw [inverseOpticalDepth_exact (exactGrid (constantField 1)) _ _ _ _ _ _ _ _ _ _ rfl]
    norm_num [halvesMarcher, marchCells, inverseStep, exactGrid, constantField]
  · rw [inverseOpticalDepth_raymarching (marchGrid 1 (constantField 1)) _ _ _ _ _ _ _ _ _ _ rfl]
    norm_num [marchGrid, inverseOpticalDepthLoop, constantStream, PathSampleGenerator.peek,
      PathSampleGenerator.next1D, gridAt, constantField]

/-- C7 fails on the code: on the ramp field with the ray along x, over `[1, 2]` with step
size 1 and jitter 1/2, `densityIntegral` returns `5/4`, while the trapezoid sum of the
samples taken on the ray at the nodes `1, 3/2, 2` is `3/2`: the first sample is taken at
`p` (the ray at 0), not at `p + w*t0`. -/
theorem densityIntegral_first_sample_at_p :
    ((marchGrid 1 rampField).densityIntegral halvesMarcher 2 (constantStream (1 / 2))
        origin xAxis 1 2).1 = some (5 / 4) ∧
      stepNode 1 2 1 (1 / 2) 2 = 2 ∧
      trapezoidSum (stepNode 1 2 1 (1 / 2))
        (raySample (gridAt rampField) origin xAxis (stepNode 1 2 1 (1 / 2))) 2 = 3 / 2 := by
  refine ⟨?_, ?_, ?_⟩
  · rw [densityIntegral_raymarching (marchGrid 1 rampField) _ _ _ _ _ _ _ rfl]
    norm_num [marchGrid, densityIntegralLoop, constantStream, PathSampleGenerator.peek,
      PathSampleGenerator.next1D, gridAt, rampField, origin, xAxis, Vec3f.add, Vec3f.scale]
  · norm_num [stepNode, stepLength]
  · norm_num [trapezoidSum, raySample, stepNode, stepLength, gridAt, rampField, origin, xAxis,
      Vec3f.add, Vec3f.scale]

/-- C9 fails on the code: on the field of constant density 1 (`sigmaT = 1`, step size 1,
jitter 1/2, `xi = 1/4`) the first step `[0, 1/2]` crosses with `fa = fb = 1`; the code
divides by `a = fb - fa = 0` and returns no number, where the linear solve gives `1/4`. -/
theorem inverseOpticalDepth_flat_step_divides_by_zero (sqrt : ℚ → ℚ) (fuel : ℕ) :
    ((marchGrid 1 (constantField 1)).inverseOpticalDepth halvesMarcher sqrt (fuel + 1)
        (constantStream (1 / 2)) origin xAxis 0 1 1 (1 / 4)).1
      = Except.error Fault.divByZero := by
  rw [inverseOpticalDepth_raymarching (marchGrid 1 (constantField 1)) _ _ _ _ _ _ _ _ _ _ rfl]
  norm_num [marchGrid, inverseOpticalDepthLoop, solveCrossing, fdiv, constantStream,
    PathSampleGenerator.peek, PathSampleGenerator.next1D, gridAt, constantField]

theorem rampField_on_ray (t : ℚ) : gridAt rampField (origin.add (xAxis.scale t)) = t := by
  simp [gridAt, rampField, origin, xAxis, Vec3f.add, Vec3f.scale]

/-- On the ramp the trapezoids of the loop are exact from the second sample on; the first
sample, taken at `p`, leaves a deficit of `t0*(s_1 - t0)/2`. -/
theorem rampField_trapezoidSum (t0 t1 h u : ℚ) :
    ∀ N, trapezoidSum (stepNode t0 t1 h u)
        (loopSample (gridAt rampField) origin xAxis (stepNode t0 t1 h u)) (N + 1)
      = (stepNode t0 t1 h u (N + 1) ^ 2 - t0 ^ 2) / 2
          - t0 * (stepNode t0 t1 h u 1 - t0) / 2 := by
  intro N
  induction N with
  | zero =>
    have h0 : stepNode t0 t1 h u 0 = t0 := rfl
    have hp : gridAt rampField origin = 0 := rfl
    simp only [trapezoidSum, loopSample, if_true, Nat.zero_add, if_neg (Nat.succ_ne_zero 0),
      rampField_on_ray, h0, hp]
    ring
  | succ N ih =>
    rw [trapezoidSum, ih]
    simp only [loopSample, if_neg (Nat.succ_ne_zero _), rampField_on_ray]
    ring

/-- C8 fails on the code: for the ramp `density(p + w*t) = t` over `[1, 2]` (closed-form
integral `3/2`) no constant `C` bounds the error by `C*h^2`: for every `C` there are a
step size `h > 0` and a jitter `u` in `[0,1)` for which raymarching `densityIntegral`
returns a value `r` with `|r - 3/2| > C*h^2` (the error is `h/4` for `u = 1/2`, `h <= 1`). -/
theorem densityIntegral_ramp_error_first_order (C : ℚ) :
    ∃ h u N r, 0 < h ∧ 0 ≤ u ∧ u < 1 ∧
      (∀ fuel, N ≤ fuel →
        ((marchGrid h rampField).densityIntegral halvesMarcher fuel (constantStream u)
          origin xAxis 1 2).1 = some r) ∧
      C * h ^ 2 < |r - 3 / 2| := by
  have hd : (0 : ℚ) < 4 * |C| + 4 := by positivity
  have hh : (0 : ℚ) < 1 / (4 * |C| + 4) := one_div_pos.mpr hd
  have hsmall : 1 / (4 * |C| + 4) ≤ (1 : ℚ) / 4 :=
    one_div_le_one_div_of_le (by norm_num) (by linarith [abs_nonneg C])
  have hCh : C * (1 / (4 * |C| + 4)) < 1 / 4 := by
    rw [mul_one_div, div_lt_iff₀ hd]
    linarith [le_abs_self C]
  obtain ⟨K, _, hend, hrun⟩ := densityIntegralLoop_result rampField origin xAxis 1 2
    (1 / (4 * |C| + 4)) (1 / 2) hh
  have hnode1 : stepNode 1 2 (1 / (4 * |C| + 4)) (1 / 2) 1
      = 1 + 1 / 2 * (1 / (4 * |C| + 4)) := by
    show min (1 + stepLength (1 / (4 * |C| + 4)) (1 / 2) 0) 2 = _
    rw [stepLength, if_pos rfl]
    exact min_eq_left (by linarith)
  have hval := rampField_trapezoidSum 1 2 (1 / (4 * |C| + 4)) (1 / 2) K
  rw [hend, hnode1] at hval
  refine ⟨1 / (4 * |C| + 4), 1 / 2, K + 1,
    trapezoidSum (stepNode 1 2 (1 / (4 * |C| + 4)) (1 / 2))
      (loopSample (gridAt rampField) origin xAxis (stepNode 1 2 (1 / (4 * |C| + 4)) (1 / 2)))
      (K + 1),
    hh, by norm_num, by norm_num, fun fuel hfuel => ?_, ?_⟩
  · rw [densityIntegral_raymarching (marchGrid (1 / (4 * |C| + 4)) rampField) _ _ _ _ _ _ _ rfl]
    exact hrun fuel hfuel
  · rw [hval]
    have herr : (2 ^ 2 - 1 ^ 2) / 2 - 1 * (1 + 1 / 2 * (1 / (4 * |C| + 4)) - 1) / 2 - 3 / 2
        = -(1 / (4 * |C| + 4) / 4) := by ring
    have hq : (0 : ℚ) < 1 / (4 * |C| + 4) / 4 := by positivity
    rw [herr, abs_neg, abs_of_pos hq]
    nlinarith [mul_pos hh (sub_pos.mpr hCh)]

/-! ## Method names -/

/-- C16: `stringToSampleMethod` and `stringToIntegrationMethod` fail if and only if the
name is neither "exact_nearest" nor "raymarching"; the match is exact and case-sensitive
(a capitalised name fails), and the two accepted names give `ExactNearest` and
`Raymarching`. -/
theorem stringToMethod_fails_iff (name : String) :
    ((∃ e, stringToSampleMethod name = Except.error e)
        ↔ name ≠ "exact_nearest" ∧ name ≠ "raymarching") ∧
      ((∃ e, stringToIntegrationMethod name = Except.error e)
        ↔ name ≠ "exact_nearest" ∧ name ≠ "raymarching") ∧
      stringToSampleMethod "exact_nearest" = Except.ok SampleMethod.ExactNearest ∧
      stringToSampleMethod "raymarching" = Except.ok SampleMethod.Raymarching ∧
      stringToIntegrationMethod "exact_nearest" = Except.ok IntegrationMethod.ExactNearest ∧
      stringToIntegrationMethod "raymarching" = Except.ok IntegrationMethod.Raymarching ∧
      stringToSampleMethod "Raymarching"
        = Except.error (Failure.invalidSampleMethod "Raymarching") ∧
      stringToIntegrationMethod "EXACT_NEAREST"
        = Except.error (Failure.invalidIntegrationMethod "EXACT_NEAREST") := by
  refine ⟨?_, ?_, rfl, rfl, rfl, rfl, rfl, rfl⟩
  · unfold stringToSampleMethod
    by_cases h1 : name = "exact_nearest"
    · simp [h1]
    · by_cases h2 : name = "raymarching"
      · simp [h2]
      · simp [h1, h2]
  · unfold stringToIntegrationMethod
    by_cases h1 : name = "exact_nearest"
    · simp [h1]
    · by_cases h2 : name = "raymarching"
      · simp [h2]
      · simp [h1, h2]

theorem methodName_roundtrip_sample (s : String) (hs : AcceptedName s) :
    ∃ m, stringToSampleMethod s = Except.ok m ∧ sampleMethodToString m = s := by
  rcases hs with rfl | rfl
  · exact ⟨SampleMethod.ExactNearest, rfl, rfl⟩
  · exact ⟨SampleMethod.Raymarching, rfl, rfl⟩

theorem methodName_roundtrip_integration (s : String) (hs : AcceptedName s) :
    ∃ m, stringToIntegrationMethod s = Except.ok m ∧ integrationMethodToString m = s := by
  rcases hs with rfl | rfl
  · exact ⟨IntegrationMethod.ExactNearest, rfl, rfl⟩
  · exact ⟨IntegrationMethod.Raymarching, rfl, rfl⟩

/-- C17: the method-name mapping is two-way: parsing the name of a method gives the
method back, and naming the method parsed from an accepted name gives the name back,
for `SampleMethod` and for `IntegrationMethod`. -/
theorem methodName_two_way :
    (∀ m, stringToSampleMethod (sampleMethodToString m) = Except.ok m) ∧
      (∀ s, AcceptedName s →
        ∃ m, stringToSampleMethod s = Except.ok m ∧ sampleMethodToString m = s) ∧
      (∀ m, stringToIntegrationMethod (integrationMethodToString m) = Except.ok m) ∧
      (∀ s, AcceptedName s →
        ∃ m, stringToIntegrationMethod s = Except.ok m ∧ integrationMethodToString m = s) := by
  exact ⟨fun m => by cases m <;> rfl, methodName_roundtrip_sample,
    fun m => by cases m <;> rfl, methodName_roundtrip_integration⟩

theorem methodName_two_way_witness :
    (∃ m, stringToSampleMethod "raymarching" = Except.ok m
        ∧ sampleMethodToString m = "raymarching") ∧
      ∃ m, stringToIntegrationMethod "exact_nearest" = Except.ok m
        ∧ integrationMethodToString m = "exact_nearest" :=
  ⟨methodName_two_way.2.1 "raymarching" (Or.inr rfl),
    methodName_two_way.2.2.2 "exact_nearest" (Or.inl rfl)⟩

/-! ## Configuration states -/

theorem stringToIntegrationMethod_eq_ok (s : String) (m : IntegrationMethod)
    (h : stringToIntegrationMethod s = Except.ok m) :
    (m = IntegrationMethod.ExactNearest ↔ s = "exact_nearest") ∧
      (m = IntegrationMethod.Raymarching ↔ s = "raymarching") := by
  unfold stringToIntegrationMethod at h
  by_cases h1 : s = "exact_nearest"
  · subst h1
    simp at h
    subst h
    exact ⟨by simp, by decide⟩
  · by_cases h2 : s = "raymarching"
    · subst h2
      simp at h
      subst h
      exact ⟨by decide, by simp⟩
    · simp [h1, h2] at h

theorem stringToSampleMethod_eq_ok (s : String) (m : SampleMethod)
    (h : stringToSampleMethod s = Except.ok m) :
    (m = SampleMethod.ExactNearest ↔ s = "exact_nearest") ∧
      (m = SampleMethod.Raymarching ↔ s = "raymarching") := by
  unfold stringToSampleMethod at h
  by_cases h1 : s = "exact_nearest"
  · subst h1
    simp at h
    subst h
    exact ⟨by simp, by decide⟩
  · by_cases h2 : s = "raymarching"
    · subst h2
      simp at h
      subst h
      exact ⟨by decide, by simp⟩
    · simp [h1, h2] at h

theorem create_eq (unloaded : FloatGrid) :
    VdbGrid.create unloaded
      = Except.ok ⟨"density", "exact_nearest", "exact_nearest", 5,
          IntegrationMethod.ExactNearest, SampleMethod.ExactNearest, unloaded, none, 1, 1, 1, 1,
          ⟨⟨0, 0, 0⟩, ⟨0, 0, 0⟩⟩⟩ := by
  rfl

/-- What a successful `fromJson` leaves in the grid: the parsed strings and the methods
they name. -/
theorem fromJson_eq_ok (g g' : VdbGrid) (v : JsonObject) (scene : Scene)
    (h : g.fromJson v scene = Except.ok g') :
    g'._integrationString = JsonUtils.fromJsonString v "integration_method" g._integrationString ∧
      g'._sampleString = JsonUtils.fromJsonString v "sampling_method" g._sampleString ∧
      g'._stepSize = JsonUtils.fromJsonFloat v "step_size" g._stepSize ∧
      g'._path = scene.fetchResource v "file" ∧
      stringToIntegrationMethod g'._integrationString = Except.ok g'._integrationMethod ∧
      stringToSampleMethod g'._sampleString = Except.ok g'._sampleMethod := by
  unfold VdbGrid.fromJson at h
  simp only at h
  split at h
  · exact absurd h (by simp)
  · rename_i im him
    split at h
    · exact absurd h (by simp)
    · rename_i sm hsm
      simp only [Except.ok.injEq] at h
      subst h
      exact ⟨rfl, rfl, rfl, rfl, him, hsm⟩

/-- In every reachable state the stored methods are the ones the stored strings name. -/
theorem reachable_methods (g : VdbGrid) (h : Reachable g) :
    stringToIntegrationMethod g._integrationString = Except.ok g._integrationMethod ∧
      stringToSampleMethod g._sampleString = Except.ok g._sampleMethod := by
  cases h with
  | created unloaded _ hc =>
    rw [create_eq, Except.ok.injEq] at hc
    subst hc
    exact ⟨rfl, rfl⟩
  | configured g0 _ v scene _ hf =>
    exact (fromJson_eq_ok g0 g v scene hf).2.2.2.2

/-- The object `toJson` builds when `_path` is set: the members of the base object, then
those of the grid, `step_size` among them when one of the methods is raymarching. -/
theorem toJson_eq (g : VdbGrid) (base : JsonObject) (path : String)
    (hpath : g._path = some path) :
    g.toJson base = some (base ++
      ([("type", JsonValue.string "vdb"), ("file", JsonValue.string path),
        ("grid_name", JsonValue.string g._gridName),
        ("integration_method", JsonValue.string g._integrationString),
        ("sampling_method", JsonValue.string g._sampleString)]
      ++ ((if g._integrationMethod = IntegrationMethod.Raymarching
            ∨ g._sampleMethod = SampleMethod.Raymarching then
          [("step_size", JsonValue.number g._stepSize)] else [])
        ++ [("transform", JsonValue.matrix g._configTransform)]))) := by
  unfold VdbGrid.toJson
  rw [hpath]
  by_cases hc : g._integrationMethod = IntegrationMethod.Raymarching
      ∨ g._sampleMethod = SampleMethod.Raymarching
  · simp [JsonObject.addMember, hc]
  · simp [JsonObject.addMember, hc]

theorem toJson_lookup_step_size (g : VdbGrid) (base obj : JsonObject) (path : String)
    (hpath : g._path = some path) (hbase : base.lookup "step_size" = none)
    (hobj : g.toJson base = some obj) :
    obj.lookup "step_size"
      = if g._integrationMethod = IntegrationMethod.Raymarching
            ∨ g._sampleMethod = SampleMethod.Raymarching then
          some (JsonValue.number g._stepSize) else none := by
  rw [toJson_eq g base path hpath, Option.some.injEq] at hobj
  subst hobj
  have hk1 : ("step_size" == "type") = false := by decide
  have hk2 : ("step_size" == "file") = false := by decide
  have hk3 : ("step_size" == "grid_name") = false := by decide
  have hk4 : ("step_size" == "integration_method") = false := by decide
  have hk5 : ("step_size" == "sampling_method") = false := by decide
  have hk6 : ("step_size" == "transform") = false := by decide
  by_cases hc : g._integrationMethod = IntegrationMethod.Raymarching
      ∨ g._sampleMethod = SampleMethod.Raymarching
  · simp [List.lookup_append, hbase, List.lookup_cons, hk1, hk2, hk3, hk4, hk5, hc]
  · simp [List.lookup_append, hbase, List.lookup_cons, hk1, hk2, hk3, hk4, hk5, hk6, hc]

theorem toJson_lookup_integration_method (g : VdbGrid) (base obj : JsonObject) (path : String)
    (hpath : g._path = some path) (hbase : base.lookup "integration_method" = none)
    (hobj : g.toJson base = some obj) :
    obj.lookup "integration_method" = some (JsonValue.string g._integrationString) := by
  rw [toJson_eq g base path hpath, Option.some.injEq] at hobj
  subst hobj
  have hk1 : ("integration_method" == "type") = false := by decide
  have hk2 : ("integration_method" == "file") = false := by decide
  have hk3 : ("integration_method" == "grid_name") = false := by decide
  simp [List.lookup_append, hbase, List.lookup_cons, hk1, hk2, hk3]

theorem toJson_lookup_sampling_method (g : VdbGrid) (base obj : JsonObject) (path : String)
    (hpath : g._path = some path) (hbase : base.lookup "sampling_method" = none)
    (hobj : g.toJson base = some obj) :
    obj.lookup "sampling_method" = some (JsonValue.string g._sampleString) := by
  rw [toJson_eq g base path hpath, Option.some.injEq] at hobj
  subst hobj
  have hk1 : ("sampling_method" == "type") = false := by decide
  have hk2 : ("sampling_method" == "file") = false := by decide
  have hk3 : ("sampling_method" == "grid_name") = false := by decide
  have hk4 : ("sampling_method" == "integration_method") = false := by decide
  simp [List.lookup_append, hbase, List.lookup_cons, hk1, hk2, hk3, hk4]

/-- C14: in every state reachable by construction and successful `fromJson` calls (with
`_path` set, so that `toJson` has a path to write, and a base object without the key),
the object `toJson` produces omits `step_size` if and only if both methods are
exact_nearest, as stored methods and as stored method strings; otherwise it holds
`step_size` with the stored step size. -/
theorem toJson_step_size_omitted_iff (g : VdbGrid) (base : JsonObject) (path : String)
    (hreach : Reachable g) (hpath : g._path = some path)
    (hbase : base.lookup "step_size" = none) :
    ∃ obj, g.toJson base = some obj ∧
      (obj.lookup "step_size" = none
        ↔ g._integrationMethod = IntegrationMethod.ExactNearest
          ∧ g._sampleMethod = SampleMethod.ExactNearest) ∧
      (obj.lookup "step_size" = none
        ↔ g._integrationString = "exact_nearest" ∧ g._sampleString = "exact_nearest") ∧
      (obj.lookup "step_size" = some (JsonValue.number g._stepSize)
        ↔ g._integrationMethod = IntegrationMethod.Raymarching
          ∨ g._sampleMethod = SampleMethod.Raymarching) := by
  obtain ⟨hi, hs⟩ := reachable_methods g hreach
  have hi' := stringToIntegrationMethod_eq_ok _ _ hi
  have hs' := stringToSampleMethod_eq_ok _ _ hs
  refine ⟨_, toJson_eq g base path hpath, ?_⟩
  rw [toJson_lookup_step_size g base _ path hpath hbase (toJson_eq g base path hpath)]
  rw [← hi'.1, ← hs'.1]
  cases g._integrationMethod <;> cases g._sampleMethod <;> simp

theorem fromJsonString_of_option (v : JsonObject) (key dflt s : String)
    (h : v.lookup key = some (JsonValue.string s) ∨ (v.lookup key = none ∧ s = dflt)) :
    JsonUtils.fromJsonString v key dflt = s := by
  unfold JsonUtils.fromJsonString
  rcases h with h | ⟨h, rfl⟩ <;> rw [h]

theorem fromJsonFloat_of_option (v : JsonObject) (key : String) (dflt x : ℚ)
    (h : v.lookup key = some (JsonValue.number x) ∨ (v.lookup key = none ∧ x = dflt)) :
    JsonUtils.fromJsonFloat v key dflt = x := by
  unfold JsonUtils.fromJsonFloat
  rcases h with h | ⟨h, rfl⟩ <;> rw [h]

theorem fromJson_succeeds (g : VdbGrid) (v : JsonObject) (scene : Scene)
    (im : IntegrationMethod) (sm : SampleMethod)
    (hi : stringToIntegrationMethod
      (JsonUtils.fromJsonString v "integration_method" g._integrationString) = Except.ok im)
    (hs : stringToSampleMethod
      (JsonUtils.fromJsonString v "sampling_method" g._sampleString) = Except.ok sm) :
    ∃ g', g.fromJson v scene = Except.ok g' := by
  unfold VdbGrid.fromJson
  simp only [hi, hs]
  exact ⟨_, rfl⟩

/-- C15: deserialising then reserialising preserves the method strings.  For a
configuration whose `integration_method` and `sampling_method` are each absent or an
accepted name (and whose `file` resolves), `toJson` after `fromJson` on a freshly
constructed grid emits the two method strings given (or "exact_nearest" where absent),
and emits `step_size`, equal to the given value or the default 5, exactly when one of
the two emitted strings is "raymarching". -/
theorem fromJson_toJson_methods (unloaded : FloatGrid) (g0 : VdbGrid) (v base : JsonObject)
    (scene : Scene) (path integration sampling : String) (stepSize : ℚ)
    (hcreate : VdbGrid.create unloaded = Except.ok g0)
    (hfile : scene.fetchResource v "file" = some path)
    (hint : v.lookup "integration_method" = some (JsonValue.string integration)
      ∨ (v.lookup "integration_method" = none ∧ integration = "exact_nearest"))
    (hintName : AcceptedName integration)
    (hsamp : v.lookup "sampling_method" = some (JsonValue.string sampling)
      ∨ (v.lookup "sampling_method" = none ∧ sampling = "exact_nearest"))
    (hsampName : AcceptedName sampling)
    (hstep : v.lookup "step_size" = some (JsonValue.number stepSize)
      ∨ (v.lookup "step_size" = none ∧ stepSize = 5))
    (hbase : base.lookup "integration_method" = none ∧ base.lookup "sampling_method" = none
      ∧ base.lookup "step_size" = none) :
    ∃ g obj, g0.fromJson v scene = Except.ok g ∧ g.toJson base = some obj ∧
      obj.lookup "integration_method" = some (JsonValue.string integration) ∧
      obj.lookup "sampling_method" = some (JsonValue.string sampling) ∧
      obj.lookup "step_size"
        = if integration = "raymarching" ∨ sampling = "raymarching" then
            some (JsonValue.number stepSize) else none := by
  have hg0 : g0._integrationString = "exact_nearest" ∧ g0._sampleString = "exact_nearest"
      ∧ g0._stepSize = 5 := by
    rw [create_eq, Except.ok.injEq] at hcreate
    subst hcreate
    exact ⟨rfl, rfl, rfl⟩
  obtain ⟨im, him, _⟩ := methodName_roundtrip_integration integration hintName
  obtain ⟨sm, hsm, _⟩ := methodName_roundtrip_sample sampling hsampName
  have e1 := fromJsonString_of_option v "integration_method" g0._integrationString integration
    (by rw [hg0.1]; exact hint)
  have e2 := fromJsonString_of_option v "sampling_method" g0._sampleString sampling
    (by rw [hg0.2.1]; exact hsamp)
  have e3 := fromJsonFloat_of_option v "step_size" g0._stepSize stepSize
    (by rw [hg0.2.2]; exact hstep)
  obtain ⟨g, hg⟩ := fromJson_succeeds g0 v scene im sm (by rw [e1]; exact him)
    (by rw [e2]; exact hsm)
  obtain ⟨h1, h2, h3, h4, h5, h6⟩ := fromJson_eq_ok g0 g v scene hg
  rw [e1] at h1
  rw [e2] at h2
  rw [e3] at h3
  rw [hfile] at h4
  have hobj := toJson_eq g base path h4
  refine ⟨g, _, hg, hobj, ?_, ?_, ?_⟩
  · rw [toJson_lookup_integration_method g base _ path h4 hbase.1 hobj, h1]
  · rw [toJson_lookup_sampling_method g base _ path h4 hbase.2.1 hobj, h2]
  · rw [toJson_lookup_step_size g base _ path h4 hbase.2.2 hobj, h3]
    have hi' := (stringToIntegrationMethod_eq_ok _ _ h5).2
    have hs' := (stringToSampleMethod_eq_ok _ _ h6).2
    rw [h1] at hi'
    rw [h2] at hs'
    simp only [hi', hs']

theorem smokeGrid_fromJson :
    (⟨"density", "exact_nearest", "exact_nearest", 5, IntegrationMethod.ExactNearest,
        SampleMethod.ExactNearest, constantField 1, none, 1, 1, 1, 1,
        ⟨⟨0, 0, 0⟩, ⟨0, 0, 0⟩⟩⟩ : VdbGrid).fromJson smokeConfig plainScene
      = Except.ok smokeGrid := by
  rfl

theorem smokeGrid_reachable : Reachable smokeGrid :=
  Reachable.configured _ smokeGrid smokeConfig plainScene
    (Reachable.created (constantField 1) _ (create_eq (constantField 1))) smokeGrid_fromJson

theorem toJson_step_size_omitted_iff_witness :
    ∃ obj, smokeGrid.toJson [] = some obj ∧
      (obj.lookup "step_size" = none
        ↔ smokeGrid._integrationMethod = IntegrationMethod.ExactNearest
          ∧ smokeGrid._sampleMethod = SampleMethod.ExactNearest) ∧
      (obj.lookup "step_size" = none
        ↔ smokeGrid._integrationString = "exact_nearest"
          ∧ smokeGrid._sampleString = "exact_nearest") ∧
      (obj.lookup "step_size" = some (JsonValue.number smokeGrid._stepSize)
        ↔ smokeGrid._integrationMethod = IntegrationMethod.Raymarching
          ∨ smokeGrid._sampleMethod = SampleMethod.Raymarching) :=
  toJson_step_size_omitted_iff smokeGrid [] "smoke.vdb" smokeGrid_reachable rfl rfl

theorem fromJson_toJson_methods_witness :
    ∃ g obj, (⟨"density", "exact_nearest", "exact_nearest", 5, IntegrationMethod.ExactNearest,
        SampleMethod.ExactNearest, constantField 1, none, 1, 1, 1, 1,
        ⟨⟨0, 0, 0⟩, ⟨0, 0, 0⟩⟩⟩ : VdbGrid).fromJson smokeConfig plainScene = Except.ok g ∧
      g.toJson [] = some obj ∧
      obj.lookup "integration_method" = some (JsonValue.string "exact_nearest") ∧
      obj.lookup "sampling_method" = some (JsonValue.string "raymarching") ∧
      obj.lookup "step_size"
        = if "exact_nearest" = "raymarching" ∨ "raymarching" = "raymarching" then
            some (JsonValue.number 5) else none :=
  fromJson_toJson_methods (constantField 1) _ smokeConfig [] plainScene "smoke.vdb"
    "exact_nearest" "raymarching" 5 (create_eq (constantField 1)) rfl
    (Or.inr ⟨rfl, rfl⟩) (Or.inl rfl) (Or.inl rfl) (Or.inr rfl) (Or.inr ⟨rfl, rfl⟩)
    ⟨rfl, rfl, rfl⟩

/-! ## Use of the sample stream -/

/-- C18: exact mode uses no randomness.  With the method exact_nearest, `densityIntegral`
and `inverseOpticalDepth` leave the sample stream as it was and return the same result
for every stream state, step size and fuel; with the method raymarching each call draws
exactly one value: the stream is advanced by one position. -/
theorem sample_stream_use (g : VdbGrid) (dda : VdbRaymarcher) (sqrt : ℚ → ℚ) (fuel : ℕ)
    (sampler : PathSampleGenerator) (p w : Vec3f) (t0 t1 sigmaT xi : ℚ) :
    (g._integrationMethod = IntegrationMethod.ExactNearest →
      (g.densityIntegral dda fuel sampler p w t0 t1).2 = sampler ∧
      ∀ (h : ℚ) (fuel' : ℕ) (sampler' : PathSampleGenerator),
        ((g.withStepSize h).densityIntegral dda fuel' sampler' p w t0 t1).1
          = (g.densityIntegral dda fuel sampler p w t0 t1).1) ∧
    (g._sampleMethod = SampleMethod.ExactNearest →
      (g.inverseOpticalDepth dda sqrt fuel sampler p w t0 t1 sigmaT xi).2 = sampler ∧
      ∀ (h : ℚ) (fuel' : ℕ) (sampler' : PathSampleGenerator),
        ((g.withStepSize h).inverseOpticalDepth dda sqrt fuel' sampler' p w t0 t1 sigmaT xi).1
          = (g.inverseOpticalDepth dda sqrt fuel sampler p w t0 t1 sigmaT xi).1) ∧
    (g._integrationMethod = IntegrationMethod.Raymarching →
      (g.densityIntegral dda fuel sampler p w t0 t1).2 = sampler.next1D.2 ∧
      (g.densityIntegral dda fuel sampler p w t0 t1).2.cursor = sampler.cursor + 1 ∧
      (g.densityIntegral dda fuel sampler p w t0 t1).2.stream = sampler.stream) ∧
    (g._sampleMethod = SampleMethod.Raymarching →
      (g.inverseOpticalDepth dda sqrt fuel sampler p w t0 t1 sigmaT xi).2 = sampler.next1D.2 ∧
      (g.inverseOpticalDepth dda sqrt fuel sampler p w t0 t1 sigmaT xi).2.cursor
        = sampler.cursor + 1 ∧
      (g.inverseOpticalDepth dda sqrt fuel sampler p w t0 t1 sigmaT xi).2.stream
        = sampler.stream) := by
  refine ⟨fun hm => ⟨?_, fun h fuel' sampler' => ?_⟩, fun hm => ⟨?_, fun h fuel' sampler' => ?_⟩,
    fun hm => ?_, fun hm => ?_⟩
  · rw [densityIntegral_exact g dda fuel sampler p w t0 t1 hm]
  · rw [densityIntegral_exact g dda fuel sampler p w t0 t1 hm,
      densityIntegral_exact (g.withStepSize h) dda fuel' sampler' p w t0 t1 hm]
    rfl
  · rw [inverseOpticalDepth_exact g dda sqrt fuel sampler p w t0 t1 sigmaT xi hm]
  · rw [inverseOpticalDepth_exact g dda sqrt fuel sampler p w t0 t1 sigmaT xi hm,
      inverseOpticalDepth_exact (g.withStepSize h) dda sqrt fuel' sampler' p w t0 t1 sigmaT xi hm]
    rfl
  · rw [densityIntegral_raymarching g dda fuel sampler p w t0 t1 hm]
    exact ⟨rfl, rfl, rfl⟩
  · rw [inverseOpticalDepth_raymarching g dda sqrt fuel sampler p w t0 t1 sigmaT xi hm]
    exact ⟨rfl, rfl, rfl⟩

theorem sample_stream_use_witness :
    ((exactGrid rampField).densityIntegral halvesMarcher 0 (constantStream (1 / 2))
        origin xAxis 0 2).2 = constantStream (1 / 2) ∧
      ((exactGrid rampField).inverseOpticalDepth halvesMarcher Rat.sqrt 0
        (constantStream (1 / 2)) origin xAxis 0 2 1 1).2 = constantStream (1 / 2) ∧
      ((marchGrid 1 rampField).densityIntegral halvesMarcher 3 (constantStream (1 / 2))
        origin xAxis 0 2).2.cursor = (constantStream (1 / 2)).cursor + 1 ∧
      ((marchGrid 1 rampField).inverseOpticalDepth halvesMarcher Rat.sqrt 3
        (constantStream (1 / 2)) origin xAxis 0 2 1 1).2.cursor
          = (constantStream (1 / 2)).cursor + 1 :=
  ⟨((sample_stream_use (exactGrid rampField) halvesMarcher Rat.sqrt 0 (constantStream (1 / 2))
      origin xAxis 0 2 1 1).1 rfl).1,
    ((sample_stream_use (exactGrid rampField) halvesMarcher Rat.sqrt 0 (constantStream (1 / 2))
      origin xAxis 0 2 1 1).2.1 rfl).1,
    ((sample_stream_use (marchGrid 1 rampField) halvesMarcher Rat.sqrt 3 (constantStream (1 / 2))
      origin xAxis 0 2 1 1).2.2.1 rfl).2.1,
    ((sample_stream_use (marchGrid 1 rampField) halvesMarcher Rat.sqrt 3 (constantStream (1 / 2))
      origin xAxis 0 2 1 1).2.2.2 rfl).2.1⟩

/-! ## The crossing voxel of the exact walk -/

/-- The linear solve in the voxel where the threshold is crossed: entered with
`opticalDepth < xi <= opticalDepth + delta`, the contribution `delta` is positive, the
callback returns `(d, v)` with the optical depth accumulated up to `d` equal to `xi`, and
`ta < d <= tb` on a span `ta <= tb`. -/
theorem inverseStep_cross (grid : FloatGrid) (sigmaT xi od : ℚ) (res : Except Fault Vec2f)
    (c : Cell) (hod : od < xi) (hcross : xi ≤ od + cellDelta grid sigmaT c) :
    0 < cellDelta grid sigmaT c ∧
      ∃ d, inverseStep grid sigmaT xi ⟨od, res⟩ c
          = (⟨od, Except.ok ⟨d, grid.getValue c.voxel⟩⟩, true) ∧
        (c.ta ≤ c.tb → c.ta < d ∧ d ≤ c.tb) ∧
        od + grid.getValue c.voxel * sigmaT * (d - c.ta) = xi := by
  have hdelta : 0 < cellDelta grid sigmaT c := by linarith
  have hne : cellDelta grid sigmaT c ≠ 0 := hdelta.ne'
  refine ⟨hdelta, c.ta + (c.tb - c.ta) * (xi - od) / cellDelta grid sigmaT c, ?_, ?_, ?_⟩
  · unfold cellDelta at hcross hne ⊢
    simp only [inverseStep, if_pos (show _ ≥ xi from hcross), fdiv, if_neg hne, Except.map]
  · intro hspan
    have hlen : 0 < c.tb - c.ta := by
      rcases (sub_nonneg.mpr hspan).lt_or_eq with h | h
      · exact h
      · exfalso
        unfold cellDelta at hdelta
        rw [← h, mul_zero] at hdelta
        exact lt_irrefl _ hdelta
    constructor
    · have : 0 < (c.tb - c.ta) * (xi - od) / cellDelta grid sigmaT c :=
        div_pos (mul_pos hlen (by linarith)) hdelta
      linarith
    · have : (c.tb - c.ta) * (xi - od) / cellDelta grid sigmaT c ≤ c.tb - c.ta := by
        rw [div_le_iff₀ hdelta]
        exact mul_le_mul_of_nonneg_left (by linarith) hlen.le
      linarith
  · have hfac : grid.getValue c.voxel * sigmaT
          * (c.ta + (c.tb - c.ta) * (xi - od) / cellDelta grid sigmaT c - c.ta)
        = cellDelta grid sigmaT c * (xi - od) / cellDelta grid sigmaT c := by
      unfold cellDelta
      ring
    rw [hfac, mul_div_cancel_left₀ _ hne]
    ring

/-- The exact walk from a state with `opticalDepth < xi`: every callback is entered below
`xi`, and either no cell crosses and `result` is untouched, or the walk stops in the
first crossing cell with the linear solve of `inverseStep_cross`. -/
theorem marchCells_inverseStep_walk (grid : FloatGrid) (sigmaT xi : ℚ)
    (res : Except Fault Vec2f) :
    ∀ (cs : List Cell) (od : ℚ), od < xi →
      (∀ e ∈ marchEntries (inverseStep grid sigmaT xi) cs ⟨od, res⟩, e.1.opticalDepth < xi) ∧
      (((marchCells (inverseStep grid sigmaT xi) cs ⟨od, res⟩).result = res ∧
          ∀ k, k < cs.length → od + ((cs.take (k + 1)).map (cellDelta grid sigmaT)).sum < xi) ∨
        ∃ (before : List Cell) (c : Cell) (after : List Cell) (d : ℚ),
          cs = before ++ c :: after ∧
          od + (before.map (cellDelta grid sigmaT)).sum < xi ∧
          xi ≤ od + (before.map (cellDelta grid sigmaT)).sum + cellDelta grid sigmaT c ∧
          0 < cellDelta grid sigmaT c ∧
          (marchCells (inverseStep grid sigmaT xi) cs ⟨od, res⟩).result
            = Except.ok ⟨d, grid.getValue c.voxel⟩ ∧
          (c.ta ≤ c.tb → c.ta < d ∧ d ≤ c.tb) ∧
          od + (before.map (cellDelta grid sigmaT)).sum
            + grid.getValue c.voxel * sigmaT * (d - c.ta) = xi) := by
  intro cs
  induction cs with
  | nil =>
    intro od _
    exact ⟨fun e he => by simp [marchEntries] at he,
      Or.inl ⟨rfl, fun k hk => by simp at hk⟩⟩
  | cons c cs ih =>
    intro od hod
    by_cases hcross : xi ≤ od + cellDelta grid sigmaT c
    · obtain ⟨hpos, d, hstep, h1, h3⟩ :=
        inverseStep_cross grid sigmaT xi od res c hod hcross
      refine ⟨fun e he => ?_, Or.inr ⟨[], c, cs, d, rfl, by simpa using hod,
        by simpa using hcross, hpos, ?_, h1, by simpa using h3⟩⟩
      · simp only [marchEntries, hstep, if_true, List.mem_singleton] at he
        rw [he]
        exact hod
      · simp only [marchCells, hstep, if_true]
    · have hlt : od + cellDelta grid sigmaT c < xi := not_le.mp hcross
      have hstep : inverseStep grid sigmaT xi ⟨od, res⟩ c
          = (⟨od + cellDelta grid sigmaT c, res⟩, false) := by
        unfold cellDelta at hcross ⊢
        simp only [inverseStep]
        rw [if_neg hcross]
      obtain ⟨hent, hrest⟩ := ih (od + cellDelta grid sigmaT c) hlt
      refine ⟨fun e he => ?_, ?_⟩
      · simp only [marchEntries, hstep, Bool.false_eq_true, if_false, List.mem_cons] at he
        rcases he with he | he
        · rw [he]; exact hod
        · exact hent e he
      · simp only [marchCells, hstep, Bool.false_eq_true, if_false]
        rcases hrest with ⟨hres, hlow⟩ | ⟨before, c', after, d, hsplit, hb, hx, hpos, hres, h1, h3⟩
        · refine Or.inl ⟨hres, fun k hk => ?_⟩
          cases k with
          | zero => simpa using hlt
          | succ k =>
            have := hlow k (by simpa using hk)
            simpa [List.take_succ_cons, add_assoc] using this
        · refine Or.inr ⟨c :: before, c', after, d, by rw [hsplit]; rfl, ?_, ?_, hpos, hres,
            h1, ?_⟩
          · simpa [add_assoc] using hb
          · simpa [add_assoc] using hx
          · simpa [add_assoc] using h3

/-- C19: in exact_nearest-mode `inverseOpticalDepth` with `xi > 0`, for any field values
and any `sigmaT`, the running optical depth is strictly below `xi` on entry to every
voxel callback; so either no voxel crosses and `(t1, 0)` is returned, or in the voxel
where the threshold is crossed `delta > 0` (the division is not by zero), the returned
distance `d` has `ta < d <= tb` for that voxel's span `ta <= tb`, and the optical depth
accumulated up to `d` equals `xi`. -/
theorem inverseOpticalDepth_exact_crossing (g : VdbGrid) (dda : VdbRaymarcher) (sqrt : ℚ → ℚ)
    (fuel : ℕ) (sampler : PathSampleGenerator) (p w : Vec3f) (t0 t1 sigmaT xi : ℚ)
    (hm : g._sampleMethod = SampleMethod.ExactNearest) (hxi : 0 < xi) :
    (∀ e ∈ marchEntries (inverseStep g._grid sigmaT xi)
        (dda.cells ⟨p.addScalar (1 / 2), w⟩ t0 t1) ⟨0, Except.ok ⟨t1, 0⟩⟩,
      e.1.opticalDepth < xi) ∧
    (((g.inverseOpticalDepth dda sqrt fuel sampler p w t0 t1 sigmaT xi).1 = Except.ok ⟨t1, 0⟩ ∧
        ∀ k, k < (dda.cells ⟨p.addScalar (1 / 2), w⟩ t0 t1).length →
          (((dda.cells ⟨p.addScalar (1 / 2), w⟩ t0 t1).take (k + 1)).map
            (cellDelta g._grid sigmaT)).sum < xi) ∨
      ∃ (before : List Cell) (c : Cell) (after : List Cell) (d : ℚ),
        dda.cells ⟨p.addScalar (1 / 2), w⟩ t0 t1 = before ++ c :: after ∧
        (before.map (cellDelta g._grid sigmaT)).sum < xi ∧
        xi ≤ (before.map (cellDelta g._grid sigmaT)).sum + cellDelta g._grid sigmaT c ∧
        0 < cellDelta g._grid sigmaT c ∧
        (g.inverseOpticalDepth dda sqrt fuel sampler p w t0 t1 sigmaT xi).1
          = Except.ok ⟨d, g._grid.getValue c.voxel⟩ ∧
        (c.ta ≤ c.tb → c.ta < d ∧ d ≤ c.tb) ∧
        (before.map (cellDelta g._grid sigmaT)).sum
          + g._grid.getValue c.voxel * sigmaT * (d - c.ta) = xi) := by
  obtain ⟨hent, hres⟩ := marchCells_inverseStep_walk g._grid sigmaT xi (Except.ok ⟨t1, 0⟩)
    (dda.cells ⟨p.addScalar (1 / 2), w⟩ t0 t1) 0 hxi
  rw [inverseOpticalDepth_exact g dda sqrt fuel sampler p w t0 t1 sigmaT xi hm]
  refine ⟨hent, ?_⟩
  rcases hres with ⟨hr, hlow⟩ | ⟨before, c, after, d, hsplit, hb, hx, hpos, hr, h1, h3⟩
  · exact Or.inl ⟨hr, fun k hk => by simpa using hlow k hk⟩
  · exact Or.inr ⟨before, c, after, d, hsplit, by simpa using hb, by simpa using hx, hpos, hr,
      h1, by simpa using h3⟩

/-! ## The raymarching loops under float rounding -/

theorem roundHalfEven_of_lt (n : ℤ) (d : ℚ) (h0 : 0 ≤ d) (h1 : d < 1 / 2) :
    roundHalfEven (n + d) = n := by
  have hf : ⌊(n : ℚ) + d⌋ = n := by
    rw [Int.floor_eq_iff]
    constructor <;> linarith
  unfold roundHalfEven
  rw [hf, if_pos (by linarith)]

/-- Around `2^24` the floats are two apart: adding less than 1 to `2^24` rounds back to
`2^24`. -/
theorem roundFloat_absorbs (d : ℚ) (h0 : 0 ≤ d) (h1 : d < 1) :
    roundFloat (16777216 + d) = 16777216 := by
  have hx : (0 : ℚ) < 16777216 + d := by linarith
  have hlog : Int.log 2 |16777216 + d| = 24 := by
    rw [abs_of_pos hx]
    apply le_antisymm
    · have h25 : Int.log 2 (16777216 + d) < 25 :=
        (Int.lt_zpow_iff_log_lt (by norm_num) hx).mp (by norm_num; linarith)
      omega
    · exact (Int.zpow_le_iff_le_log (by norm_num) hx).mp (by norm_num; linarith)
  unfold roundFloat
  rw [if_neg hx.ne', hlog]
  have h2 : (2 : ℚ) ^ ((24 : ℤ) - 23) = 2 := by norm_num
  have h3 : (16777216 + d) / 2 = ((8388608 : ℤ) : ℚ) + d / 2 := by push_cast; ring
  rw [h2, h3, roundHalfEven_of_lt _ _ (by linarith) (by linarith)]
  norm_num

/-- A number with at most 24 significant bits is a float: here `1/4`. -/
theorem roundFloat_quarter : roundFloat (1 / 2 * (1 / 2)) = 1 / 4 := by
  have hx : (0 : ℚ) < 1 / 4 := by norm_num
  have hlog : Int.log 2 |(1 / 4 : ℚ)| = -2 := by
    rw [abs_of_pos hx]
    apply le_antisymm
    · have h1 : Int.log 2 (1 / 4 : ℚ) < -1 :=
        (Int.lt_zpow_iff_log_lt (by norm_num) hx).mp (by norm_num)
      omega
    · exact (Int.zpow_le_iff_le_log (by norm_num) hx).mp (by norm_num)
  have hq : (1 / 2 * (1 / 2) : ℚ) = 1 / 4 := by norm_num
  rw [hq]
  unfold roundFloat
  rw [if_neg hx.ne', hlog]
  have h2 : (2 : ℚ) ^ ((-2 : ℤ) - 23) = 1 / 33554432 := by norm_num [zpow_neg]
  have h3 : (1 / 4 : ℚ) / (1 / 33554432) = ((8388608 : ℤ) : ℚ) + 0 := by norm_num
  rw [h2, h3, roundHalfEven_of_lt _ _ le_rfl (by norm_num)]
  norm_num

/-- When the rounded sum `ta + _stepSize` gives back `ta < t1`, the loop of
`densityIntegral` never leaves: no amount of fuel yields a result. -/
theorem densityIntegralLoopOver_stalls {K : Type} [LinearOrderedField K] (rnd : K → K)
    (sample : Vec3 K → K) (p w : Vec3 K) (ta t1 h : K) (hlt : ta < t1)
    (habs : rnd (ta + h) = ta) :
    ∀ (fuel : ℕ) (fa integral dT : K), rnd (ta + dT) = ta →
      densityIntegralLoopOver rnd sample p w t1 h fuel ta fa integral dT = none := by
  intro fuel
  induction fuel with
  | zero => intro _ _ _ _; rfl
  | succ fuel ih =>
    intro fa integral dT hdT
    simp only [densityIntegralLoopOver]
    rw [hdT, min_eq_left hlt.le, if_pos hlt]
    exact ih _ _ h habs

/-- When the rounded sum `ta + _stepSize` gives back `ta < t1`, the loop of
`inverseOpticalDepth` never leaves on an empty field with a threshold `xi > 0`. -/
theorem inverseOpticalDepthLoopOver_stalls {K : Type} [LinearOrderedField K] (rnd sqrt : K → K)
    (p w : Vec3 K) (ta t1 sigmaT xi h : K) (hr0 : rnd 0 = 0) (hxi : 0 < xi) (hlt : ta < t1)
    (habs : rnd (ta + h) = ta) :
    ∀ (fuel : ℕ) (dT : K), rnd (ta + dT) = ta →
      inverseOpticalDepthLoopOver rnd sqrt (fun _ => 0) p w t1 sigmaT xi h fuel ta 0 0 dT
        = Except.error Fault.outOfFuel := by
  intro fuel
  induction fuel with
  | zero => intro _ _; rfl
  | succ fuel ih =>
    intro dT hdT
    simp only [inverseOpticalDepthLoopOver]
    rw [hdT, min_eq_left hlt.le]
    simp only [zero_mul, add_zero, sub_self, mul_zero, hr0]
    rw [if_neg (not_le.mpr hxi), if_pos hlt]
    exact ih h habs

/-- C20 fails on the code: in `float` arithmetic, with `t0 = 2^24`, `t1 = 2^24 + 2`, step
size `1/2` and jitter `1/2` (first step length `1/4`), the sums `ta + dT` round back to
`ta = 2^24` in every iteration, so `ta < t1` stays true: the loop of `densityIntegral`
yields no result with any fuel, on every field and ray, and neither does the loop of
`inverseOpticalDepth` on an empty field with `xi = 1`.  In exact arithmetic the same
call finishes after the five steps that `ceil((t1 - t0)/h) + 1` allows. -/
theorem raymarching_loops_stall (sample : Vec3 ℚ → ℚ) (p w : Vec3 ℚ) (sqrt : ℚ → ℚ)
    (sigmaT fa integral : ℚ) (fuel : ℕ) :
    roundFloat (1 / 2 * (1 / 2)) = 1 / 4 ∧
      roundFloat (16777216 + 1 / 4) = 16777216 ∧
      roundFloat (16777216 + 1 / 2) = 16777216 ∧
      densityIntegralLoopOver roundFloat sample p w 16777218 (1 / 2) fuel 16777216 fa integral
          (1 / 4) = none ∧
      inverseOpticalDepthLoopOver roundFloat sqrt (fun _ => 0) p w 16777218 sigmaT 1 (1 / 2)
          fuel 16777216 0 0 (1 / 4) = Except.error Fault.outOfFuel ∧
      (densityIntegralLoopOver id sample p w 16777218 (1 / 2) 5 16777216 fa integral
          (1 / 4)).isSome = true ∧
      densityIntegralLoopOver id sample p w 16777218 (1 / 2) 4 16777216 fa integral
          (1 / 4) = none := by
  have hq := roundFloat_absorbs (1 / 4) (by norm_num) (by norm_num)
  have hh := roundFloat_absorbs (1 / 2) (by norm_num) (by norm_num)
  refine ⟨roundFloat_quarter, hq, hh, ?_, ?_, ?_, ?_⟩
  · exact densityIntegralLoopOver_stalls roundFloat sample p w 16777216 16777218 (1 / 2)
      (by norm_num) hh fuel fa integral (1 / 4) hq
  · exact inverseOpticalDepthLoopOver_stalls roundFloat sqrt p w 16777216 16777218 sigmaT 1
      (1 / 2) (by simp [roundFloat]) (by norm_num) (by norm_num) hh fuel (1 / 4) hq
  · norm_num [densityIntegralLoopOver]
  · norm_num [densityIntegralLoopOver]

/-! ## The normalising transform -/

theorem translate_mul_translate (a b : Vec3f) :
    Mat4f.translate a * Mat4f.translate b = Mat4f.translate (a.add b) := by
  ext i j
  fin_cases i <;> fin_cases j <;>
    simp [Mat4f.translate, Vec3f.add, Matrix.mul_apply, Fin.sum_univ_four, Matrix.vecHead,
      Matrix.vecTail] <;> ring

theorem scale_mul_scale (a b : Vec3f) :
    Mat4f.scale a * Mat4f.scale b = Mat4f.scale ⟨a.x * b.x, a.y * b.y, a.z * b.z⟩ := by
  ext i j
  fin_cases i <;> fin_cases j <;>
    simp [Mat4f.scale, Matrix.mul_apply, Fin.sum_univ_four, Matrix.vecHead, Matrix.vecTail]

theorem translate_zero : Mat4f.translate ⟨0, 0, 0⟩ = 1 := by
  ext i j
  fin_cases i <;> fin_cases j <;>
    simp [Mat4f.translate, Matrix.one_apply, Matrix.vecHead, Matrix.vecTail]

theorem scale_one : Mat4f.scale ⟨1, 1, 1⟩ = 1 := by
  ext i j
  fin_cases i <;> fin_cases j <;>
    simp [Mat4f.scale, Matrix.one_apply, Matrix.vecHead, Matrix.vecTail]

/-- A translation by `-c` after a uniform scaling by `s`, and the scaling by `t` after
the translation by `c`, are inverse to each other when `s*t = 1`. -/
theorem translate_scale_inverse (c : Vec3f) (s t : ℚ) (hst : s * t = 1) :
    (Mat4f.translate c.neg * Mat4f.scale (Vec3f.splat s))
        * (Mat4f.scale (Vec3f.splat t) * Mat4f.translate c) = 1 ∧
      (Mat4f.scale (Vec3f.splat t) * Mat4f.translate c)
        * (Mat4f.translate c.neg * Mat4f.scale (Vec3f.splat s)) = 1 := by
  have hts : t * s = 1 := by rw [mul_comm]; exact hst
  have hss : Mat4f.scale (Vec3f.splat s) * Mat4f.scale (Vec3f.splat t) = 1 := by
    rw [scale_mul_scale]
    simp only [Vec3f.splat, hst]
    exact scale_one
  have hss' : Mat4f.scale (Vec3f.splat t) * Mat4f.scale (Vec3f.splat s) = 1 := by
    rw [scale_mul_scale]
    simp only [Vec3f.splat, hts]
    exact scale_one
  have htt : Mat4f.translate c.neg * Mat4f.translate c = 1 := by
    rw [translate_mul_translate]
    simp only [Vec3f.add, Vec3f.neg, neg_add_cancel]
    exact translate_zero
  have htt' : Mat4f.translate c * Mat4f.translate c.neg = 1 := by
    rw [translate_mul_translate]
    simp only [Vec3f.add, Vec3f.neg, add_neg_cancel]
    exact translate_zero
  constructor
  · calc (Mat4f.translate c.neg * Mat4f.scale (Vec3f.splat s))
          * (Mat4f.scale (Vec3f.splat t) * Mat4f.translate c)
        = Mat4f.translate c.neg
            * ((Mat4f.scale (Vec3f.splat s) * Mat4f.scale (Vec3f.splat t))
              * Mat4f.translate c) := by simp only [Matrix.mul_assoc]
      _ = 1 := by rw [hss, Matrix.one_mul, htt]
  · calc (Mat4f.scale (Vec3f.splat t) * Mat4f.translate c)
          * (Mat4f.translate c.neg * Mat4f.scale (Vec3f.splat s))
        = Mat4f.scale (Vec3f.splat t)
            * ((Mat4f.translate c * Mat4f.translate c.neg)
              * Mat4f.scale (Vec3f.splat s)) := by simp only [Matrix.mul_assoc]
      _ = 1 := by rw [htt', Matrix.one_mul, hss']

theorem mul_invert (m : Mat4f) (hdet : Matrix.det m ≠ 0) : m * m.invert = 1 := by
  unfold Mat4f.invert
  rw [Matrix.mul_smul, Matrix.mul_adjugate, smul_smul, inv_mul_cancel₀ hdet, one_smul]

/-- What `loadResources` stores for a box of non-zero largest extent `m`: the scale is
`1/m`, its inverse `m`, and the translation is `center`. -/
theorem loadResources_eq (g : VdbGrid) (grid : FloatGrid) (bbox : CoordBBox)
    (hm : bbox.largestExtent ≠ 0) :
    g.loadResources grid bbox
      = Except.ok ⟨g._gridName, g._integrationString, g._sampleString, g._stepSize,
          g._integrationMethod, g._sampleMethod, grid, g._path, g._configTransform,
          g._configTransform.invert,
          Mat4f.translate bbox.center.neg * Mat4f.scale (Vec3f.splat (1 / bbox.largestExtent)),
          Mat4f.scale (Vec3f.splat bbox.largestExtent) * Mat4f.translate bbox.center,
          ⟨bbox.minP, bbox.maxP⟩⟩ := by
  have hdiag : (Vec3f.ofVec3i ((Vec3i.mk bbox.max.x bbox.max.y bbox.max.z).sub
      (Vec3i.mk bbox.min.x bbox.min.y bbox.min.z))) = bbox.extent := by
    simp [Vec3f.ofVec3i, Vec3i.sub, CoordBBox.extent]
  have hscale : (1 : ℚ) / bbox.largestExtent ≠ 0 := one_div_ne_zero hm
  have hinv : (1 : ℚ) / (1 / bbox.largestExtent) = bbox.largestExtent := one_div_one_div _
  have hcenter : ((Vec3f.ofVec3i (Vec3i.mk bbox.min.x bbox.min.y bbox.min.z)).scale
        (1 / bbox.largestExtent)).add
      ((Vec3f.mk (bbox.extent.scale (1 / bbox.largestExtent)).x 0
        (bbox.extent.scale (1 / bbox.largestExtent)).z).scale (1 / 2)) = bbox.center := by
    simp only [Vec3f.ofVec3i, Vec3f.scale, Vec3f.add, CoordBBox.center, CoordBBox.minP,
      Vec3f.mk.injEq]
    refine ⟨by ring, by ring, by ring⟩
  unfold VdbGrid.loadResources
  simp only [hdiag]
  have hm' : bbox.extent.max ≠ 0 := hm
  simp only [fdiv, if_neg hm', hcenter]
  rw [show (1 : ℚ) / bbox.extent.max = 1 / bbox.largestExtent from rfl] at *
  simp only [hinv, hcenter, if_neg hscale]
  rfl

/-- C12: after `loadResources` on an active bounding box whose largest extent is not
zero, the stored forward and inverse transforms compose to the identity in both orders,
and if the configuration transform is invertible (its determinant is not zero),
`naturalTransform() * invNaturalTransform()` is the identity as well. -/
theorem loadResources_transforms_inverse (g : VdbGrid) (grid : FloatGrid) (bbox : CoordBBox)
    (hm : bbox.largestExtent ≠ 0) :
    ∃ g', g.loadResources grid bbox = Except.ok g' ∧
      g'._transform * g'._invTransform = 1 ∧ g'._invTransform * g'._transform = 1 ∧
      (Matrix.det g._configTransform ≠ 0 →
        g'.naturalTransform * g'.invNaturalTransform = 1) := by
  obtain ⟨h1, h2⟩ := translate_scale_inverse bbox.center (1 / bbox.largestExtent)
    bbox.largestExtent (one_div_mul_cancel hm)
  refine ⟨_, loadResources_eq g grid bbox hm, h1, h2, fun hdet => ?_⟩
  show g._configTransform
      * (Mat4f.translate bbox.center.neg * Mat4f.scale (Vec3f.splat (1 / bbox.largestExtent)))
      * (Mat4f.scale (Vec3f.splat bbox.largestExtent) * Mat4f.translate bbox.center
        * g._configTransform.invert) = 1
  calc g._configTransform
        * (Mat4f.translate bbox.center.neg * Mat4f.scale (Vec3f.splat (1 / bbox.largestExtent)))
        * (Mat4f.scale (Vec3f.splat bbox.largestExtent) * Mat4f.translate bbox.center
          * g._configTransform.invert)
      = g._configTransform
          * ((Mat4f.translate bbox.center.neg
              * Mat4f.scale (Vec3f.splat (1 / bbox.largestExtent)))
            * (Mat4f.scale (Vec3f.splat bbox.largestExtent) * Mat4f.translate bbox.center))
          * g._configTransform.invert := by simp only [Matrix.mul_assoc]
    _ = 1 := by rw [h1, Matrix.mul_one, mul_invert _ hdet]

theorem translate_scale_transformPoint (c : Vec3f) (s : ℚ) (x : Vec3f) :
    Mat4f.transformPoint (Mat4f.translate c * Mat4f.scale (Vec3f.splat s)) x
      = ⟨s * x.x + c.x, s * x.y + c.y, s * x.z + c.z⟩ := by
  simp [Mat4f.transformPoint, Mat4f.translate, Mat4f.scale, Vec3f.splat, Matrix.mul_apply,
    Fin.sum_univ_four, Matrix.vecHead, Matrix.vecTail]

/-- C13: for an active index-space bounding box `[minP, maxP]` with non-zero largest
extent `m`, the forward transform derived by `loadResources` maps `x` to `x/m - center`
with `center = minP/m + 0.5*(ext.x, 0, ext.z)/m`; `minP` goes to `(-d.x/2, 0, -d.z/2)` and
`maxP` to `(d.x/2, d.y, d.z/2)` with `d = (maxP - minP)/m`: the image is centred on x and
z, anchored at 0 on y, every extent of it is at most 1 and the largest is exactly 1. -/
theorem loadResources_normalises (g : VdbGrid) (grid : FloatGrid) (bbox : CoordBBox)
    (hbox : bbox.min.x ≤ bbox.max.x ∧ bbox.min.y ≤ bbox.max.y ∧ bbox.min.z ≤ bbox.max.z)
    (hm : bbox.largestExtent ≠ 0) :
    ∃ g', g.loadResources grid bbox = Except.ok g' ∧
      (∀ x : Vec3f, g'._transform.transformPoint x
        = ⟨x.x / bbox.largestExtent - bbox.center.x, x.y / bbox.largestExtent - bbox.center.y,
            x.z / bbox.largestExtent - bbox.center.z⟩) ∧
      g'._transform.transformPoint bbox.minP
        = ⟨-(bbox.normalisedExtent.x / 2), 0, -(bbox.normalisedExtent.z / 2)⟩ ∧
      g'._transform.transformPoint bbox.maxP
        = ⟨bbox.normalisedExtent.x / 2, bbox.normalisedExtent.y, bbox.normalisedExtent.z / 2⟩ ∧
      bbox.normalisedExtent.x ≤ 1 ∧ bbox.normalisedExtent.y ≤ 1 ∧ bbox.normalisedExtent.z ≤ 1 ∧
      bbox.normalisedExtent.max = 1 := by
  have hx : (0 : ℚ) ≤ bbox.extent.x := by
    have : (bbox.min.x : ℚ) ≤ bbox.max.x := by exact_mod_cast hbox.1
    simp only [CoordBBox.extent]; linarith
  have hle : bbox.extent.x ≤ bbox.largestExtent ∧ bbox.extent.y ≤ bbox.largestExtent
      ∧ bbox.extent.z ≤ bbox.largestExtent := by
    simp only [CoordBBox.largestExtent, Vec3f.max]
    exact ⟨le_max_of_le_left (le_max_left _ _), le_max_of_le_left (le_max_right _ _),
      le_max_right _ _⟩
  have hpos : 0 < bbox.largestExtent := lt_of_le_of_ne (hx.trans hle.1) (Ne.symm hm)
  have hmap : ∀ x : Vec3f,
      Mat4f.transformPoint (Mat4f.translate bbox.center.neg
          * Mat4f.scale (Vec3f.splat (1 / bbox.largestExtent))) x
        = ⟨x.x / bbox.largestExtent - bbox.center.x, x.y / bbox.largestExtent - bbox.center.y,
            x.z / bbox.largestExtent - bbox.center.z⟩ := by
    intro x
    rw [translate_scale_transformPoint]
    simp only [Vec3f.neg, Vec3f.mk.injEq]
    refine ⟨by ring, by ring, by ring⟩
  refine ⟨_, loadResources_eq g grid bbox hm, hmap, ?_, ?_, ?_, ?_, ?_, ?_⟩
  · show Mat4f.transformPoint (Mat4f.translate bbox.center.neg
        * Mat4f.scale (Vec3f.splat (1 / bbox.largestExtent))) bbox.minP = _
    rw [hmap]
    simp only [CoordBBox.center, CoordBBox.normalisedExtent, CoordBBox.minP, Vec3f.mk.injEq]
    refine ⟨by ring, by ring, by ring⟩
  · show Mat4f.transformPoint (Mat4f.translate bbox.center.neg
        * Mat4f.scale (Vec3f.splat (1 / bbox.largestExtent))) bbox.maxP = _
    rw [hmap]
    simp only [CoordBBox.center, CoordBBox.normalisedExtent, CoordBBox.minP, CoordBBox.maxP,
      CoordBBox.extent, Vec3f.mk.injEq]
    refine ⟨by ring, by ring, by ring⟩
  · exact (div_le_one hpos).mpr hle.1
  · exact (div_le_one hpos).mpr hle.2.1
  · exact (div_le_one hpos).mpr hle.2.2
  · simp only [CoordBBox.normalisedExtent, Vec3f.max]
    rw [max_div_div_right hpos.le, max_div_div_right hpos.le]
    exact div_self hm

theorem loadResources_transforms_inverse_witness :
    ∃ g', smokeGrid.loadResources (constantField 1) sampleBBox = Except.ok g' ∧
      g'._transform * g'._invTransform = 1 ∧ g'._invTransform * g'._transform = 1 ∧
      g'.naturalTransform * g'.invNaturalTransform = 1 := by
  obtain ⟨g', h1, h2, h3, h4⟩ :=
    loadResources_transforms_inverse smokeGrid (constantField 1) sampleBBox
      (by norm_num [CoordBBox.largestExtent, CoordBBox.extent, Vec3f.max, sampleBBox])
  refine ⟨g', h1, h2, h3, h4 ?_⟩
  have hid : smokeGrid._configTransform = 1 := rfl
  rw [hid, Matrix.det_one]
  exact one_ne_zero

theorem loadResources_normalises_witness :
    ∃ g', smokeGrid.loadResources (constantField 1) sampleBBox = Except.ok g' ∧
      g'._transform.transformPoint sampleBBox.minP
        = ⟨-(sampleBBox.normalisedExtent.x / 2), 0, -(sampleBBox.normalisedExtent.z / 2)⟩ ∧
      sampleBBox.normalisedExtent.max = 1 := by
  obtain ⟨g', h1, _, h3, _, _, _, _, h8⟩ :=
    loadResources_normalises smokeGrid (constantField 1) sampleBBox
      (by norm_num [sampleBBox])
      (by norm_num [CoordBBox.largestExtent, CoordBBox.extent, Vec3f.max, sampleBBox])
  exact ⟨g', h1, h3, h8⟩

/-! ## Nearest-hit and any-hit queries -/

theorem pushed_mem (This : BVH4iIntersector1) (ray : Ray) (tfar : ℚ) (b0 b1 b2 b3 : Box3f)
    (c0 c1 c2 c3 n : Node) :
    n ∈ This.pushed ray tfar b0 b1 b2 b3 c0 c1 c2 c3
      ↔ (This.entered ray tfar b0 = true ∧ n = c0) ∨ (This.entered ray tfar b1 = true ∧ n = c1)
        ∨ (This.entered ray tfar b2 = true ∧ n = c2)
        ∨ (This.entered ray tfar b3 = true ∧ n = c3) := by
  unfold BVH4iIntersector1.pushed
  rw [List.mem_map]
  constructor
  · rintro ⟨k, hk, rfl⟩
    rw [(List.perm_insertionSort _ _).mem_iff, List.mem_filter] at hk
    obtain ⟨hmem, hent⟩ := hk
    simp only [List.mem_cons, List.mem_singleton, List.not_mem_nil, or_false] at hmem
    rcases hmem with rfl | rfl | rfl | rfl
    · exact Or.inl ⟨hent, rfl⟩
    · exact Or.inr (Or.inl ⟨hent, rfl⟩)
    · exact Or.inr (Or.inr (Or.inl ⟨hent, rfl⟩))
    · exact Or.inr (Or.inr (Or.inr ⟨hent, rfl⟩))
  · intro h
    rcases h with ⟨hent, rfl⟩ | ⟨hent, rfl⟩ | ⟨hent, rfl⟩ | ⟨hent, rfl⟩
    · exact ⟨(b0, _), by
        rw [(List.perm_insertionSort _ _).mem_iff, List.mem_filter]
        exact ⟨by simp, hent⟩, rfl⟩
    · exact ⟨(b1, _), by
        rw [(List.perm_insertionSort _ _).mem_iff, List.mem_filter]
        exact ⟨by simp, hent⟩, rfl⟩
    · exact ⟨(b2, _), by
        rw [(List.perm_insertionSort _ _).mem_iff, List.mem_filter]
        exact ⟨by simp, hent⟩, rfl⟩
    · exact ⟨(b3, _), by
        rw [(List.perm_insertionSort _ _).mem_iff, List.mem_filter]
        exact ⟨by simp, hent⟩, rfl⟩

/-- Whatever the order, the pushed children contain a hit exactly when one of the entered
children does. -/
theorem pushed_any (This : BVH4iIntersector1) (ray : Ray) (b0 b1 b2 b3 : Box3f)
    (c0 c1 c2 c3 : Node) :
    (This.pushed ray ray.tMax b0 b1 b2 b3 c0 c1 c2 c3).any (This.anyHit ray)
      = This.anyHit ray (Node.inner b0 b1 b2 b3 c0 c1 c2 c3) := by
  rw [Bool.eq_iff_iff, List.any_eq_true]
  simp only [BVH4iIntersector1.anyHit, Bool.or_eq_true, Bool.and_eq_true, pushed_mem]
  constructor
  · rintro ⟨n, hn, hhit⟩
    rcases hn with ⟨he, rfl⟩ | ⟨he, rfl⟩ | ⟨he, rfl⟩ | ⟨he, rfl⟩
    · exact Or.inl (Or.inl (Or.inl ⟨he, hhit⟩))
    · exact Or.inl (Or.inl (Or.inr ⟨he, hhit⟩))
    · exact Or.inl (Or.inr ⟨he, hhit⟩)
    · exact Or.inr ⟨he, hhit⟩
  · rintro (((⟨he, hhit⟩ | ⟨he, hhit⟩) | ⟨he, hhit⟩) | ⟨he, hhit⟩)
    · exact ⟨c0, Or.inl ⟨he, rfl⟩, hhit⟩
    · exact ⟨c1, Or.inr (Or.inl ⟨he, rfl⟩), hhit⟩
    · exact ⟨c2, Or.inr (Or.inr (Or.inl ⟨he, rfl⟩)), hhit⟩
    · exact ⟨c3, Or.inr (Or.inr (Or.inr ⟨he, rfl⟩)), hhit⟩

/-- The any-hit loop answers whether some node of the stack contains a hit. -/
theorem occludedLoop_eq_any (This : BVH4iIntersector1) (ray : Ray) :
    ∀ (n : ℕ) (stack : List Node), (stack.map Node.size).sum ≤ n →
      This.occludedLoop ray stack = stack.any (This.anyHit ray) := by
  intro n
  induction n with
  | zero =>
    intro stack hsize
    cases stack with
    | nil => simp [BVH4iIntersector1.occludedLoop]
    | cons node stack =>
      exfalso
      cases node <;> simp [Node.size] at hsize
  | succ n ih =>
    intro stack hsize
    cases stack with
    | nil => simp [BVH4iIntersector1.occludedLoop]
    | cons node stack =>
      cases node with
      | empty =>
        rw [BVH4iIntersector1.occludedLoop, ih stack (by
          simp only [List.map_cons, List.sum_cons, Node.size] at hsize; omega)]
        simp [BVH4iIntersector1.anyHit]
      | leaf tris =>
        rw [BVH4iIntersector1.occludedLoop, ih stack (by
          simp only [List.map_cons, List.sum_cons, Node.size] at hsize; omega)]
        by_cases hany : (tris.any fun tri => (This.hitWithin ray ray.tMax tri).isSome) = true
        · simp [BVH4iIntersector1.anyHit, hany]
        · simp [BVH4iIntersector1.anyHit, hany]
      | inner b0 b1 b2 b3 c0 c1 c2 c3 =>
        have hperm := List.perm_insertionSort
          (fun x y : Box3f × Node => This.nearer ray x.1 y.1 = true)
          ([(b0, c0), (b1, c1), (b2, c2), (b3, c3)].filter
            fun k => This.entered ray ray.tMax k.1)
        have hsum := ((hperm.map Prod.snd).map Node.size).sum_eq
        have hsub := (((List.filter_sublist
          (p := fun k : Box3f × Node => This.entered ray ray.tMax k.1)
          [(b0, c0), (b1, c1), (b2, c2), (b3, c3)]).map Prod.snd).map Node.size).sum_le_sum
          (fun _ _ => Nat.zero_le _)
        rw [BVH4iIntersector1.occludedLoop, ih _ (by
          simp only [BVH4iIntersector1.pushed, List.map_append, List.sum_append, List.map_cons,
            List.sum_cons, Node.size, List.map_nil, List.sum_nil] at hsum hsub hsize ⊢
          omega)]
        rw [List.any_append, pushed_any, List.any_cons]

theorem tryTriangle_isSome (This : BVH4iIntersector1) (ray : Ray) (best : Option Hit)
    (tri : Triangle) :
    (This.tryTriangle ray best tri).isSome
      = (best.isSome || (This.hitWithin ray ray.tMax tri).isSome) := by
  unfold BVH4iIntersector1.tryTriangle
  cases best with
  | none =>
    simp only [tfarOf]
    cases This.hitWithin ray ray.tMax tri <;> rfl
  | some h =>
    cases This.hitWithin ray (tfarOf ray (some h)) tri <;> rfl

theorem foldl_tryTriangle_isSome (This : BVH4iIntersector1) (ray : Ray) :
    ∀ (tris : List Triangle) (best : Option Hit),
      (tris.foldl (This.tryTriangle ray) best).isSome
        = (best.isSome || tris.any fun tri => (This.hitWithin ray ray.tMax tri).isSome) := by
  intro tris
  induction tris with
  | nil => intro best; simp
  | cons tri tris ih =>
    intro best
    rw [List.foldl_cons, ih, tryTriangle_isSome, List.any_cons, Bool.or_assoc]

/-- The nearest-hit loop ends with a hit exactly when it started with one or some node of
the stack contains a hit within `[tMin, tMax]`. -/
theorem intersectLoop_isSome (This : BVH4iIntersector1) (ray : Ray) :
    ∀ (n : ℕ) (stack : List Node) (best : Option Hit), (stack.map Node.size).sum ≤ n →
      (This.intersectLoop ray stack best).isSome
        = (best.isSome || stack.any (This.anyHit ray)) := by
  intro n
  induction n with
  | zero =>
    intro stack best hsize
    cases stack with
    | nil => simp [BVH4iIntersector1.intersectLoop]
    | cons node stack =>
      exfalso
      cases node <;> simp [Node.size] at hsize
  | succ n ih =>
    intro stack best hsize
    cases stack with
    | nil => simp [BVH4iIntersector1.intersectLoop]
    | cons node stack =>
      cases node with
      | empty =>
        rw [BVH4iIntersector1.intersectLoop, ih stack best (by
          simp only [List.map_cons, List.sum_cons, Node.size] at hsize; omega)]
        simp [BVH4iIntersector1.anyHit]
      | leaf tris =>
        rw [BVH4iIntersector1.intersectLoop, ih stack _ (by
          simp only [List.map_cons, List.sum_cons, Node.size] at hsize; omega),
          foldl_tryTriangle_isSome, List.any_cons, Bool.or_assoc]
        rfl
      | inner b0 b1 b2 b3 c0 c1 c2 c3 =>
        have hperm := List.perm_insertionSort
          (fun x y : Box3f × Node => This.nearer ray x.1 y.1 = true)
          ([(b0, c0), (b1, c1), (b2, c2), (b3, c3)].filter
            fun k => This.entered ray (tfarOf ray best) k.1)
        have hsum := ((hperm.map Prod.snd).map Node.size).sum_eq
        have hsub := (((List.filter_sublist
          (p := fun k : Box3f × Node => This.entered ray (tfarOf ray best) k.1)
          [(b0, c0), (b1, c1), (b2, c2), (b3, c3)]).map Prod.snd).map Node.size).sum_le_sum
          (fun _ _ => Nat.zero_le _)
        rw [BVH4iIntersector1.intersectLoop, ih _ best (by
          simp only [BVH4iIntersector1.pushed, List.map_append, List.sum_append, List.map_cons,
            List.sum_cons, Node.size, List.map_nil, List.sum_nil] at hsum hsub hsize ⊢
          omega)]
        cases best with
        | some h => rfl
        | none =>
          simp only [tfarOf]
          rw [List.any_append, pushed_any, List.any_cons]

/-- The any-hit query answers whether the nearest-hit query finds a hit. -/
theorem occluded_eq_intersect_isSome (This : BVH4iIntersector1) (ray : Ray) :
    This.occluded ray = (This.intersect ray).isSome := by
  unfold BVH4iIntersector1.occluded BVH4iIntersector1.intersect
  rw [occludedLoop_eq_any This ray _ _ le_rfl, intersectLoop_isSome This ray _ _ _ le_rfl]
  rfl

/-- C11: for every ray `intersect` and `occluded` agree: if `intersect` reports a hit at
a distance `t < ray.tMax` then `occluded` on the same ray returns true, and if
`intersect` reports no hit then `occluded` returns false. -/
theorem intersect_occluded_agree (This : BVH4iIntersector1) (ray : Ray) :
    (∀ h : Hit, This.intersect ray = some h → h.t < ray.tMax → This.occluded ray = true) ∧
      (This.intersect ray = none → This.occluded ray = false) := by
  constructor
  · intro h hhit _
    rw [occluded_eq_intersect_isSome, hhit]
    rfl
  · intro hnone
    rw [occluded_eq_intersect_isSome, hnone]
    rfl

theorem sampleTraverser_intersect : sampleTraverser.intersect sampleRay = some ⟨7, 3⟩ := by
  have hent : ∀ a b : ℚ, sampleTraverser.entered sampleRay 10 (slab a b) = decide (a ≤ 10) := by
    intro a b
    simp [BVH4iIntersector1.entered, sampleTraverser, sampleRay, xAxis, origin, slab]
  have hpush : sampleTraverser.pushed sampleRay 10 (slab 4 6) (slab 2 4) (slab 0 0) (slab 0 0)
      (Node.leaf [planeAt 9 5]) (Node.leaf [planeAt 7 3]) Node.empty Node.empty
      = [Node.empty, Node.empty, Node.leaf [planeAt 7 3], Node.leaf [planeAt 9 5]] := by
    unfold BVH4iIntersector1.pushed
    simp only [List.filter, hent]
    norm_num [List.insertionSort, List.orderedInsert, sampleTraverser, slab]
  unfold BVH4iIntersector1.intersect
  have hroot : sampleTraverser.bvh = Node.inner (slab 4 6) (slab 2 4) (slab 0 0) (slab 0 0)
      (Node.leaf [planeAt 9 5]) (Node.leaf [planeAt 7 3]) Node.empty Node.empty := rfl
  rw [hroot, BVH4iIntersector1.intersectLoop]
  have htfar : tfarOf sampleRay none = 10 := rfl
  rw [htfar, hpush]
  simp only [List.cons_append, List.nil_append, BVH4iIntersector1.intersectLoop, List.foldl_cons,
    List.foldl_nil]
  norm_num [BVH4iIntersector1.tryTriangle, BVH4iIntersector1.hitWithin, tfarOf, sampleTraverser,
    sampleRay, planeAt, xAxis, origin]

theorem intersect_occluded_agree_witness :
    sampleTraverser.intersect sampleRay = some ⟨7, 3⟩ ∧
      sampleTraverser.occluded sampleRay = true :=
  ⟨sampleTraverser_intersect,
    (intersect_occluded_agree sampleTraverser sampleRay).1 ⟨7, 3⟩ sampleTraverser_intersect
      (by norm_num [sampleRay])⟩

theorem inverseOpticalDepth_exact_crossing_witness :
    (((exactGrid (constantField 1)).inverseOpticalDepth halvesMarcher Rat.sqrt 0
          (constantStream (1 / 2)) origin xAxis 0 2 1 (3 / 2)).1 = Except.ok ⟨2, 0⟩ ∧
        ∀ k, k < (halvesMarcher.cells ⟨origin.addScalar (1 / 2), xAxis⟩ 0 2).length →
          (((halvesMarcher.cells ⟨origin.addScalar (1 / 2), xAxis⟩ 0 2).take (k + 1)).map
            (cellDelta (exactGrid (constantField 1))._grid 1)).sum < 3 / 2) ∨
      ∃ (before : List Cell) (c : Cell) (after : List Cell) (d : ℚ),
        halvesMarcher.cells ⟨origin.addScalar (1 / 2), xAxis⟩ 0 2 = before ++ c :: after ∧
        (before.map (cellDelta (exactGrid (constantField 1))._grid 1)).sum < 3 / 2 ∧
        3 / 2 ≤ (before.map (cellDelta (exactGrid (constantField 1))._grid 1)).sum
          + cellDelta (exactGrid (constantField 1))._grid 1 c ∧
        0 < cellDelta (exactGrid (constantField 1))._grid 1 c ∧
        ((exactGrid (constantField 1)).inverseOpticalDepth halvesMarcher Rat.sqrt 0
          (constantStream (1 / 2)) origin xAxis 0 2 1 (3 / 2)).1
          = Except.ok ⟨d, (exactGrid (constantField 1))._grid.getValue c.voxel⟩ ∧
        (c.ta ≤ c.tb → c.ta < d ∧ d ≤ c.tb) ∧
        (before.map (cellDelta (exactGrid (constantField 1))._grid 1)).sum
          + (exactGrid (constantField 1))._grid.getValue c.voxel * 1 * (d - c.ta) = 3 / 2 :=
  (inverseOpticalDepth_exact_crossing (exactGrid (constantField 1)) halvesMarcher Rat.sqrt 0
    (constantStream (1 / 2)) origin xAxis 0 2 1 (3 / 2) rfl (by norm_num)).2
end Tungsten
